import Mathlib

/-!
Shallow embedding of the PIVOT/UNPIVOT binder rewrite of
src/src/planner/binder/tableref/bind_pivot.cpp, together with theorems
settling the frozen claims about it.

Modelling conventions:
* C++ vectors become Lean lists; an unchecked vector subscript that can be
  out of range in the source is modelled by an explicit out-of-bounds
  outcome (Err.oob below), since such an access is undefined behaviour and
  not a catchable error.
* Thrown exceptions become an Except error monad; each throw site of the
  source gets its own Err constructor.
* std::string and duckdb string values become String; std::to_string is
  modelled by toDecimalString below.
* A value read from a moved-from std::string is modelled as the empty
  string, and a moved-from duckdb Value by the dedicated constructor
  Value.moved (the source never observes either on any path reachable from
  validated input, as the theorems show).
-/

/-! ### Decimal rendering: model of std::to_string for counters -/

/-- One decimal digit rendered as a character (used to model std::to_string). -/
def digitChar : Nat → Char
  | 0 => '0' | 1 => '1' | 2 => '2' | 3 => '3' | 4 => '4'
  | 5 => '5' | 6 => '6' | 7 => '7' | 8 => '8' | 9 => '9'
  | _ => '?'

/-- Little-endian list of decimal digits of a natural number; empty for zero. -/
def decDigits : Nat → List Nat
  | 0 => []
  | n+1 => (n+1) % 10 :: decDigits ((n+1) / 10)
decreasing_by exact Nat.div_lt_self (Nat.succ_pos n) (by decide)

/-- Recompose a little-endian digit list into the number it denotes. -/
def fromDigits : List Nat → Nat
  | [] => 0
  | d :: ds => d + 10 * fromDigits ds

/-- Model of std::to_string on natural numbers: most-significant digit first. -/
def toDecimalString (n : Nat) : String :=
  match n with
  | 0 => "0"
  | m+1 => String.mk (((decDigits (m+1)).map digitChar).reverse)

/-! ### Values

Model of the duckdb Value objects stored in pivot IN-list entries and built
by the rewrite. The source only constructs string values (enum expansion,
unpivot names), integer values (GROUP BY ordinals, array_extract index) and
list values (the multi-value duplicate-detection key and the unpivot name
list), compares values for equality, and renders them with ToString. -/

inductive Value where
  /-- a VARCHAR value -/
  | str (s : String)
  /-- an INTEGER value -/
  | int (i : Int)
  /-- a LIST value (Value::LIST) -/
  | list (vs : List Value)
  /-- a moved-from Value; its contents are unspecified in the source -/
  | moved

mutual
/-- Decidable equality on values (Value::operator== for the literal values
the rewrite compares). -/
def Value.decEq : (a b : Value) → Decidable (a = b)
  | .str a, .str b =>
      match String.decEq a b with
      | isTrue h => isTrue (by rw [h])
      | isFalse h => isFalse (fun hh => by injection hh; contradiction)
  | .int a, .int b =>
      match Int.decEq a b with
      | isTrue h => isTrue (by rw [h])
      | isFalse h => isFalse (fun hh => by injection hh; contradiction)
  | .list as, .list bs =>
      match Value.listDecEq as bs with
      | isTrue h => isTrue (by rw [h])
      | isFalse h => isFalse (fun hh => by injection hh; contradiction)
  | .moved, .moved => isTrue rfl
  | .str _, .int _ => isFalse (fun h => Value.noConfusion h)
  | .str _, .list _ => isFalse (fun h => Value.noConfusion h)
  | .str _, .moved => isFalse (fun h => Value.noConfusion h)
  | .int _, .str _ => isFalse (fun h => Value.noConfusion h)
  | .int _, .list _ => isFalse (fun h => Value.noConfusion h)
  | .int _, .moved => isFalse (fun h => Value.noConfusion h)
  | .list _, .str _ => isFalse (fun h => Value.noConfusion h)
  | .list _, .int _ => isFalse (fun h => Value.noConfusion h)
  | .list _, .moved => isFalse (fun h => Value.noConfusion h)
  | .moved, .str _ => isFalse (fun h => Value.noConfusion h)
  | .moved, .int _ => isFalse (fun h => Value.noConfusion h)
  | .moved, .list _ => isFalse (fun h => Value.noConfusion h)

/-- Decidable equality on value lists. -/
def Value.listDecEq : (as bs : List Value) → Decidable (as = bs)
  | [], [] => isTrue rfl
  | [], _ :: _ => isFalse (fun h => List.noConfusion h)
  | _ :: _, [] => isFalse (fun h => List.noConfusion h)
  | a :: as, b :: bs =>
      match Value.decEq a b, Value.listDecEq as bs with
      | isTrue h1, isTrue h2 => isTrue (by rw [h1, h2])
      | isFalse h1, _ => isFalse (fun hh => by injection hh; contradiction)
      | isTrue _, isFalse h2 => isFalse (fun hh => by injection hh; contradiction)
end

instance : DecidableEq Value := Value.decEq

mutual
/-- Model of Value::ToString (external to the repository; VARCHAR values
render as themselves, integers in decimal, lists in bracket notation). -/
def Value.toText : Value → String
  | .str s => s
  | .int i => if i < 0 then "-" ++ toDecimalString i.natAbs else toDecimalString i.natAbs
  | .list vs => "[" ++ Value.listToText vs ++ "]"
  | .moved => ""

/-- Comma-join of the renderings of a list of values. -/
def Value.listToText : List Value → String
  | [] => ""
  | [v] => v.toText
  | v :: vs => v.toText ++ ", " ++ Value.listToText vs
end

/-! ### Case-insensitive string sets and maps

The source stores handled column names in a case_insensitive_set_t and the
unpivot name map in a case_insensitive_map_t.  Both are modelled as lists
whose membership test folds case. -/

/-- ASCII lower-casing of one character (duckdb's case folding is ASCII). -/
def asciiLower (c : Char) : Char :=
  match c with
  | 'A' => 'a' | 'B' => 'b' | 'C' => 'c' | 'D' => 'd' | 'E' => 'e' | 'F' => 'f'
  | 'G' => 'g' | 'H' => 'h' | 'I' => 'i' | 'J' => 'j' | 'K' => 'k' | 'L' => 'l'
  | 'M' => 'm' | 'N' => 'n' | 'O' => 'o' | 'P' => 'p' | 'Q' => 'q' | 'R' => 'r'
  | 'S' => 's' | 'T' => 't' | 'U' => 'u' | 'V' => 'v' | 'W' => 'w' | 'X' => 'x'
  | 'Y' => 'y' | 'Z' => 'z' | c2 => c2

/-- ASCII lower-casing of a string. -/
def strFold (s : String) : String := String.mk (s.data.map asciiLower)

/-- Case-insensitive string comparison used by the binder name sets. -/
def ciEq (a b : String) : Bool := strFold a == strFold b

/-- Case-insensitive membership in a set of names. -/
def ciMem (l : List String) (s : String) : Bool := l.any (fun t => ciEq s t)

/-- Case-insensitive set insertion (no duplicate stored, as in std::set). -/
def ciInsert (l : List String) (s : String) : List String :=
  if ciMem l s then l else l ++ [s]

/-- Case-insensitive set erase: removes the element matching s. -/
def ciErase (l : List String) (s : String) : List String :=
  l.filter (fun t => !ciEq s t)

/-- Case-insensitive map lookup. -/
def ciLookup (m : List (String × String)) (s : String) : Option String :=
  match m.find? (fun p => ciEq s p.1) with
  | some p => some p.2
  | none => none

/-- Case-insensitive map insertion (operator[] assignment). -/
def ciStore (m : List (String × String)) (k v : String) : List (String × String) :=
  match m.find? (fun p => ciEq k p.1) with
  | some _ => m.map (fun p => if ciEq k p.1 then (p.1, v) else p)
  | none => m ++ [(k, v)]

/-! ### Parsed expressions

Shallow model of the ParsedExpression subclasses the rewrite constructs or
inspects: column references, constants, function calls, star expressions,
the IS NOT NULL operator, AND conjunctions, plus carriers for subquery and
window expressions (only their presence matters, via HasSubquery and
IsWindow).  The expression classes themselves are external collaborators of
the repository; only the operations bind_pivot.cpp uses are modelled. -/

inductive PExpr where
  /-- ColumnRefExpression: list of name parts (qualified iff more than one), alias -/
  | colRef (names : List String) (al : String)
  /-- ConstantExpression -/
  | constant (v : Value) (al : String)
  /-- FunctionExpression: function name, children, alias -/
  | func (fname : String) (children : List PExpr) (al : String)
  /-- StarExpression -/
  | star (al : String)
  /-- OperatorExpression with type OPERATOR_IS_NOT_NULL -/
  | isNotNull (child : PExpr) (al : String)
  /-- ConjunctionExpression with type CONJUNCTION_AND -/
  | andExpr (left : PExpr) (right : PExpr) (al : String)
  /-- a subquery expression (contents irrelevant to the rewrite) -/
  | subqueryExpr (al : String)
  /-- a window expression: function name, children -/
  | windowExpr (fname : String) (children : List PExpr) (al : String)


/-- The ExpressionType tags bind_pivot.cpp compares against. -/
inductive ExprType where
  | columnRef | function | constant | star | opIsNotNull | conjAnd
  | subqueryT | windowT
deriving DecidableEq, Repr

/-- Dispatch on the type tag of an expression (ParsedExpression::type). -/
def PExpr.exprType : PExpr → ExprType
  | .colRef _ _ => .columnRef
  | .constant _ _ => .constant
  | .func _ _ _ => .function
  | .star _ => .star
  | .isNotNull _ _ => .opIsNotNull
  | .andExpr _ _ _ => .conjAnd
  | .subqueryExpr _ => .subqueryT
  | .windowExpr _ _ _ => .windowT

/-- The alias field every ParsedExpression carries. -/
def PExpr.aliasOf : PExpr → String
  | .colRef _ a => a
  | .constant _ a => a
  | .func _ _ a => a
  | .star a => a
  | .isNotNull _ a => a
  | .andExpr _ _ a => a
  | .subqueryExpr a => a
  | .windowExpr _ _ a => a

/-- Replace the alias field of an expression. -/
def PExpr.withAlias : PExpr → String → PExpr
  | .colRef ns _, a => .colRef ns a
  | .constant v _, a => .constant v a
  | .func f cs _, a => .func f cs a
  | .star _, a => .star a
  | .isNotNull c _, a => .isNotNull c a
  | .andExpr l r _, a => .andExpr l r a
  | .subqueryExpr _, a => .subqueryExpr a
  | .windowExpr f cs _, a => .windowExpr f cs a

/-- ColumnRefExpression::GetColumnName: the last name part. -/
def colNameOf (names : List String) : String := names.getLastD ""

/-- ColumnRefExpression::IsQualified: more than one name part. -/
def isQualified (names : List String) : Bool := names.length > 1

/-- Render of an expression for ParsedExpression::ToString; external to the
repository and modelled shallowly (only column references and constants are
ever rendered on the paths the claims exercise). -/
def PExpr.renderText : PExpr → String
  | .colRef ns _ => String.intercalate "." ns
  | .constant v _ => v.toText
  | .func f _ _ => f ++ "(…)"
  | .star _ => "*"
  | .isNotNull _ _ => "(… IS NOT NULL)"
  | .andExpr _ _ _ => "(… AND …)"
  | .subqueryExpr _ => "(subquery)"
  | .windowExpr f _ _ => f ++ "(…) OVER (…)"

/-- ParsedExpression::GetName: the alias when present, else the render. -/
def PExpr.getName (e : PExpr) : String :=
  if e.aliasOf = "" then e.renderText else e.aliasOf

mutual
/-- ParsedExpression::HasSubquery: whether any node of the tree is a
subquery expression. -/
def PExpr.hasSubqueryExpr : PExpr → Bool
  | .subqueryExpr _ => true
  | .func _ cs _ => PExpr.listHasSubqueryExpr cs
  | .isNotNull c _ => c.hasSubqueryExpr
  | .andExpr l r _ => l.hasSubqueryExpr || r.hasSubqueryExpr
  | .windowExpr _ cs _ => PExpr.listHasSubqueryExpr cs
  | _ => false

/-- HasSubquery lifted over a child list. -/
def PExpr.listHasSubqueryExpr : List PExpr → Bool
  | [] => false
  | e :: es => e.hasSubqueryExpr || PExpr.listHasSubqueryExpr es
end

mutual
/-- ParsedExpression::IsWindow: whether any node of the tree is a window
expression. -/
def PExpr.isWindow : PExpr → Bool
  | .windowExpr _ _ _ => true
  | .func _ cs _ => PExpr.listIsWindow cs
  | .isNotNull c _ => c.isWindow
  | .andExpr l r _ => l.isWindow || r.isWindow
  | _ => false

/-- IsWindow lifted over a child list. -/
def PExpr.listIsWindow : List PExpr → Bool
  | [] => false
  | e :: es => e.isWindow || PExpr.listIsWindow es
end

/-! ### The pivot declaration data model (parser structs)

PivotColumnEntry, PivotColumn and PivotRef are declared in parser headers
that are not part of src/; their fields are reconstructed from every use in
bind_pivot.cpp and from section 3 of the specification. -/

/-- One IN-list entry: a tuple of literal values (one per pivot expression)
or a star marker (UNPIVOT only), plus an optional display alias. -/
structure PivotColumnEntry where
  values : List Value := []
  starEntry : Option PExpr := none
  entryAlias : String := ""


/-- One pivot column: pivot expressions with an explicit entry list, or a
reference to a named enum type to be expanded; for UNPIVOT also the name
list written after INTO NAME. -/
structure PivotColumn where
  pivotExpressions : List PExpr := []
  unpivotColNames : List String := []
  entries : List PivotColumnEntry := []
  pivotEnum : String := ""


mutual
/-- Model of the query nodes the rewrite builds: a SelectNode with select
list, FROM table, WHERE clause and GROUP BY expressions. -/
inductive SelectNode where
  | mk (selectList : List PExpr) (fromTable : Option FromTable)
       (whereClause : Option PExpr) (groupExpressions : List PExpr) : SelectNode

/-- Model of the table references the rewrite builds or moves: the opaque
original source reference, or a SubqueryRef wrapping a built SelectNode. -/
inductive FromTable where
  | base (id : Nat) : FromTable
  | subqueryRef (node : SelectNode) : FromTable
end

/-- The select list of a built node. -/
def SelectNode.selectList : SelectNode → List PExpr
  | .mk s _ _ _ => s

/-- The FROM table of a built node. -/
def SelectNode.fromTable : SelectNode → Option FromTable
  | .mk _ f _ _ => f

/-- The WHERE clause of a built node. -/
def SelectNode.whereClause : SelectNode → Option PExpr
  | .mk _ _ w _ => w

/-- The GROUP BY expressions of a built node. -/
def SelectNode.groupExpressions : SelectNode → List PExpr
  | .mk _ _ _ g => g

/-- The PivotRef table reference handed to Binder::Bind. -/
structure PivotRef where
  source : Option FromTable := none
  pivots : List PivotColumn := []
  groups : List String := []
  aggregates : List PExpr := []
  unpivotNames : List String := []
  refAlias : String := ""
  columnNameAlias : List String := []
  includeNulls : Bool := false


/-! ### The pivot-value enumerator (ConstructPivots, lines 25 to 56) -/

/-- One materialised combination across all pivot columns (struct
PivotValueElement, lines 20 to 23). -/
structure PivotValueElement where
  values : List Value := []
  name : String := ""


/-- The per-level display-name accumulation of ConstructPivots: name starts
as the entry alias; only when the alias is empty is it built from the
stringified values, appending an underscore separator only when the
accumulator is non-empty (lines 31 to 43). -/
def entryLevelName (entry : PivotColumnEntry) : String :=
  entry.values.foldl
    (fun n v => if entry.entryAlias = "" then
                  (if n = "" then v.toText else n ++ "_" ++ v.toText)
                else n)
    entry.entryAlias

/-- Combination of a parent display name with the current level name
(lines 44 to 48): the separator is omitted when the parent name is empty. -/
def combineName (parent name : String) : String :=
  if parent = "" then name else parent ++ "_" ++ name

/-- Extension of an accumulated element by one entry of the current level:
all entry values are appended and the display name combined. -/
def extendElement (cur : PivotValueElement) (entry : PivotColumnEntry) :
    PivotValueElement :=
  { values := cur.values ++ entry.values
    name := combineName cur.name (entryLevelName entry) }

/-- The recursion of ConstructPivots, one level per remaining pivot column:
for each entry of the current level the accumulated element is extended; at
the last level it is appended to the output, otherwise the recursion
descends.  The source recursion checks last_pivot before descending, so the
nil case below (returning the accumulated element itself) is exactly the
push performed at the last level. -/
def constructPivotsGo : List PivotColumn → PivotValueElement → List PivotValueElement
  | [], cur => [cur]
  | pivot :: rest, cur =>
      pivot.entries.flatMap (fun entry => constructPivotsGo rest (extendElement cur entry))

/-- ConstructPivots as invoked by BindPivot (line 318): the source reads
ref.pivots[pivot_idx] without a bounds check at every level, so a
declaration without pivot columns reaches an out-of-bounds vector access,
modelled as none. -/
def constructPivots (ref : PivotRef) : Option (List PivotValueElement) :=
  match ref.pivots with
  | [] => none
  | p :: ps => some (constructPivotsGo (p :: ps) {})

/-- Depth-first cross product of a list of levels, first level outermost:
the reference order against which the enumerator is checked. -/
def listProd : List (List α) → List (List α)
  | [] => [[]]
  | xs :: rest => xs.flatMap (fun x => (listProd rest).map (fun combo => x :: combo))

/-- The display name claimed by the specification sentence, read literally:
the underscore-join (String.intercalate) across levels of the alias when
non-empty, else the underscore-join of the stringified values. -/
def claimedDisplayName (combo : List PivotColumnEntry) : String :=
  String.intercalate "_"
    (combo.map (fun e =>
      if e.entryAlias = "" then String.intercalate "_" (e.values.map Value.toText)
      else e.entryAlias))

/-- The display name the source actually produces for one combination:
the left fold of combineName over the level names. -/
def producedDisplayName (combo : List PivotColumnEntry) : String :=
  (combo.map entryLevelName).foldl combineName ""

/-! ### Error outcomes

Each throw site of bind_pivot.cpp gets its own constructor; Err.oob is not
a thrown error but the model of an unchecked vector subscript going out of
range (undefined behaviour in the source). -/

inductive Err where
  /-- BinderException: Pivot expression must be an aggregate (line 255) -/
  | binderNotAggregate
  /-- BinderException: Pivot expression cannot contain subqueries (line 258) -/
  | binderSubqueryInAggregate
  /-- BinderException: Pivot expression cannot contain window functions (line 261) -/
  | binderWindowInAggregate
  /-- BinderException: PIVOT expression cannot contain qualified columns (line 62) -/
  | binderQualifiedColumn
  /-- CatalogException out of Catalog::GetType: the named type does not exist (line 271) -/
  | catalogMissingType (typeName : String)
  /-- BinderException: Pivot must reference an ENUM type (line 273) -/
  | binderNotAnEnum (typeName : String) (actual : String)
  /-- BinderException: value specified multiple times in IN clause (line 301) -/
  | binderDuplicateValue (v : Value)
  /-- ParserException: PIVOT IN list - inconsistent amount of rows (line 306) -/
  | parserInconsistentRows (expected got : Nat)
  /-- BinderException: Pivot column limit exceeded (line 313) -/
  | binderPivotLimit
  /-- InternalException: Unexpected child of pivot source - not a ColumnRef (lines 86, 379, 403) -/
  | internalNotColumnRef
  /-- InternalException: FIXME multiple pivots (line 228) -/
  | internalMultiplePivots
  /-- InternalException: Pivot without a source (line 486) -/
  | internalNoSource
  /-- InternalException: Unpivot - could not find column name in name map (line 428) -/
  | internalNameMapMissing
  /-- BinderException: column referenced in UNPIVOT with no matching table entry (line 418) -/
  | binderUnpivotNoMatchingEntry
  /-- BinderException: UNPIVOT name count mismatch (line 458) -/
  | binderUnpivotNameMismatch (names exprs : Nat)
  /-- an error raised by an external collaborator (source binding, node binding) -/
  | externalError (msg : String)
  /-- an out-of-bounds vector access: undefined behaviour, not an exception -/
  | oob
deriving DecidableEq

/-! ### Synthesized internal names -/

/-- The synthesized internal names of the rewrite: a fixed reserved stem,
the category word, and the decimal counter value, exactly as concatenated
at lines 108, 117, 129, 167 and 197 of the source. -/
def synthName (cat : String) (i : Nat) : String :=
  "__internal_pivot_" ++ cat ++ toDecimalString i

/-- Monadic map over the Except monad, written out as the C++ loops are:
one element at a time, aborting on the first failure. -/
def exceptMapM (f : α → Except Err β) : List α → Except Err (List β)
  | [] => .ok []
  | a :: as => do
      let b ← f a
      let bs ← exceptMapM f as
      .ok (b :: bs)

/-! ### Column-usage extraction (ExtractPivotExpressions, lines 58 to 68) -/

mutual
/-- ExtractPivotExpressions: reject qualified column references, record
unqualified ones in the case-insensitive handled set, recurse into
children.  Child enumeration of subquery expressions belongs to the
external expression iterator and is not entered by the model (no claim
exercises it: aggregates containing subqueries are rejected beforehand). -/
def extractPivotExpressions (e : PExpr) (handled : List String) :
    Except Err (List String) :=
  match e with
  | .colRef ns _ =>
      if isQualified ns then .error .binderQualifiedColumn
      else .ok (ciInsert handled (colNameOf ns))
  | .func _ cs _ => extractPivotList cs handled
  | .isNotNull c _ => extractPivotExpressions c handled
  | .andExpr l r _ => do extractPivotExpressions r (← extractPivotExpressions l handled)
  | .windowExpr _ cs _ => extractPivotList cs handled
  | _ => .ok handled

/-- Extraction folded over a child list, left to right. -/
def extractPivotList (es : List PExpr) (handled : List String) :
    Except Err (List String) :=
  match es with
  | [] => .ok handled
  | e :: es => do extractPivotList es (← extractPivotExpressions e handled)
end

/-! ### Pivot-path validation (Binder::BindPivot, lines 251 to 311) -/

/-- Aggregate-shape validation (lines 253 to 264): each aggregate must have
expression type FUNCTION, contain no subquery and no window function, and
its referenced columns join the handled set. -/
def validateAggregates : List PExpr → List String → Except Err (List String)
  | [], handled => .ok handled
  | a :: as, handled =>
      if a.exprType ≠ .function then .error .binderNotAggregate
      else if a.hasSubqueryExpr then .error .binderSubqueryInAggregate
      else if a.isWindow then .error .binderWindowInAggregate
      else do
        validateAggregates as (← extractPivotExpressions a handled)

/-- A catalog lookup result: either an enum type with its ordinal-ordered
domain values, or some other type. -/
inductive CatalogType where
  | enumType (values : List String)
  | otherType (typeName : String)

/-- Enum-reference expansion (lines 270 to 285): a pivot column naming an
enum type gets one entry appended per domain value, in ordinal order, with
both the value and the alias set to the domain string. -/
def expandEnum (catalog : String → Option CatalogType) (col : PivotColumn) :
    Except Err PivotColumn :=
  if col.pivotEnum = "" then .ok col
  else
    match catalog col.pivotEnum with
    | none => .error (.catalogMissingType col.pivotEnum)
    | some (.otherType t) => .error (.binderNotAnEnum col.pivotEnum t)
    | some (.enumType vs) =>
        .ok { col with entries := col.entries ++ vs.map (fun v =>
                { values := [.str v], starEntry := none, entryAlias := v }) }

/-- The duplicate-detection key of a value tuple (lines 294 to 299): the
single value itself when the tuple has size one, else the LIST value of the
whole tuple. -/
def keyOfValues (vs : List Value) : Value :=
  if vs.length = 1 then vs.headD .moved else .list vs

/-- The duplicate-detection key of one IN-list entry. -/
def dedupKey (entry : PivotColumnEntry) : Value :=
  keyOfValues entry.values

/-- The per-column IN-list check (lines 291 to 310): walk the entries in
order against a value set local to the column; a repeated key is a
duplicate-value error, then an entry whose tuple length differs from the
column's pivot-expression count is an inconsistent-rows error. -/
def checkPivotEntriesLoop (exprCount : Nat) (seen : List Value) :
    List PivotColumnEntry → Except Err Unit
  | [] => .ok ()
  | e :: es =>
      let val := dedupKey e
      if val ∈ seen then .error (.binderDuplicateValue val)
      else if e.values.length ≠ exprCount then
        .error (.parserInconsistentRows exprCount e.values.length)
      else checkPivotEntriesLoop exprCount (val :: seen) es

/-- The whole IN-list check of one pivot column, starting from the empty
value set declared at line 291 (the set is local to each column). -/
def checkPivotColumnEntries (col : PivotColumn) : Except Err Unit :=
  checkPivotEntriesLoop col.pivotExpressions.length [] col.entries

/-- Validation of one pivot column in source order: enum expansion, then
the entry count enters the running total, then extraction of the pivot
expressions, then the IN-list check. -/
def validatePivotColumn (catalog : String → Option CatalogType)
    (handled : List String) (col : PivotColumn) :
    Except Err (PivotColumn × List String × Nat) := do
  let col2 ← expandEnum catalog col
  let handled2 ← extractPivotList col2.pivotExpressions handled
  match checkPivotColumnEntries col2 with
  | .error e => .error e
  | .ok () => .ok (col2, handled2, col2.entries.length)

/-- The pivot-column loop of lines 268 to 311: validates every column in
order, threading the handled set and multiplying the entry counts into the
running combination total that starts at one.  The source accumulates the
total in idx_t, an unsigned 64-bit integer, so each multiplication wraps
modulo 2 to the 64. -/
def validatePivotColumns (catalog : String → Option CatalogType)
    (handled : List String) (total : Nat) :
    List PivotColumn → Except Err (List PivotColumn × List String × Nat)
  | [] => .ok ([], handled, total)
  | c :: cs => do
      let (c2, handled2, k) ← validatePivotColumn catalog handled c
      let (cs2, handled3, t) ←
        validatePivotColumns catalog handled2 (total * k % 2 ^ 64) cs
      .ok (c2 :: cs2, handled3, t)

/-- All validation of BindPivot that precedes the combination-limit check:
aggregate shapes, enum expansion, extraction and IN-list checks; returns
the expanded declaration, the handled column set and the combination
total. -/
def pivotValidate (catalog : String → Option CatalogType) (ref : PivotRef) :
    Except Err (PivotRef × List String × Nat) := do
  let handled ← validateAggregates ref.aggregates []
  let (pivots2, handled2, total) ← validatePivotColumns catalog handled 1 ref.pivots
  .ok ({ ref with pivots := pivots2 }, handled2, total)

/-- The combination total computed by validation, when validation passes. -/
def pivotTotal (catalog : String → Option CatalogType) (ref : PivotRef) :
    Option Nat :=
  match pivotValidate catalog ref with
  | .ok (_, _, t) => some t
  | .error _ => none

/-- PIVOT_EXPRESSION_LIMIT (line 248). -/
def pivotExpressionLimit : Nat := 10000

/-! ### The four pivot rewrite stages -/

/-- The name ledger threaded through the stages (struct PivotBindState,
lines 70 to 77), plus a ghost ledger of every counter-generated name in
generation order, recorded only so uniqueness can be stated (it has no
effect on the construction). -/
structure PivotBindState where
  internalGroupNames : List String := []
  groupNames : List String := []
  aggregateNames : List String := []
  internalAggregateNames : List String := []
  internalPivotNames : List String := []
  internalMapNames : List String := []
  synthesizedLedger : List String := []

/-- The GROUP BY ordinal constants: each push stores the one-based position
the accompanying select-list entry is about to occupy (lines 91, 99, 120,
147). -/
def groupOrdinals (start count : Nat) : List PExpr :=
  (List.range' (start + 1) count).map (fun i => PExpr.constant (.int i) "")

/-- Stage 1 group selection when no explicit row list was given (lines 82
to 95): every source column must be a plain column reference, and those not
in the handled set become group columns in source order. -/
def stageOneBaseColumns (handled : List String) :
    List PExpr → Except Err (List PExpr)
  | [] => .ok []
  | c :: cs =>
      match c with
      | .colRef ns a => do
          let rest ← stageOneBaseColumns handled cs
          if ciMem handled (colNameOf ns) then .ok rest
          else .ok (.colRef ns a :: rest)
      | _ => .error .internalNotColumnRef

/-- The group-alias loop of lines 104 to 111: records the display name of
every group column, synthesizes an internal alias for those without one
(the counter advances only then), and records the resulting alias.  Returns
the realiased expressions, the display names, the internal names, and the
generated names. -/
def assignGroupAliases (counter : Nat) :
    List PExpr → List PExpr × List String × List String × List String
  | [] => ([], [], [], [])
  | e :: es =>
      if e.aliasOf = "" then
        let a := synthName "group" (counter + 1)
        let (es2, gn, ign, led) := assignGroupAliases (counter + 1) es
        (e.withAlias a :: es2, e.getName :: gn, a :: ign, a :: led)
      else
        let (es2, gn, ign, led) := assignGroupAliases counter es
        (e :: es2, e.getName :: gn, e.aliasOf :: ign, led)

/-- The pivot-expression loop body of lines 115 to 124, for the expressions
of one column: an expression without alias gets a synthesized one, the
aliased expression moves into the select list, and the declaration slot is
replaced by a bare column reference to the alias. -/
def assignPivotAliasesExprs (counter : Nat) :
    List PExpr → Nat × List PExpr × List PExpr × List String
  | [] => (counter, [], [], [])
  | e :: es =>
      if e.aliasOf = "" then
        let a := synthName "ref" (counter + 1)
        let (counter2, es2, sel, led) := assignPivotAliasesExprs (counter + 1) es
        (counter2, PExpr.colRef [a] "" :: es2, e.withAlias a :: sel, a :: led)
      else
        let (counter2, es2, sel, led) := assignPivotAliasesExprs counter es
        (counter2, PExpr.colRef [e.aliasOf] "" :: es2, e :: sel, led)

/-- The outer pivot-column loop of lines 114 to 125, threading one counter
across all columns. -/
def assignPivotAliasesCols (counter : Nat) :
    List PivotColumn → Nat × List PivotColumn × List PExpr × List String
  | [] => (counter, [], [], [])
  | c :: cs =>
      let (counter1, exprs2, sel1, led1) := assignPivotAliasesExprs counter c.pivotExpressions
      let (counter2, cs2, sel2, led2) := assignPivotAliasesCols counter1 cs
      (counter2, { c with pivotExpressions := exprs2 } :: cs2, sel1 ++ sel2, led1 ++ led2)

/-- The aggregate loop of lines 126 to 134: every aggregate receives a
synthesized internal alias unconditionally; its previous alias is recorded
as the display name. -/
def assignAggregateAliases (counter : Nat) :
    List PExpr → List PExpr × List String × List String
  | [] => ([], [], [])
  | a :: as =>
      let an := synthName "aggregate" (counter + 1)
      let (sel, names, ins) := assignAggregateAliases (counter + 1) as
      (a.withAlias an :: sel, a.aliasOf :: names, an :: ins)

/-- PivotStageOne (lines 79 to 136).  The bind state is freshly created by
BindPivot just before this call, so the stage builds it from empty.
Select-list order: group columns, pivot expressions, aggregates; GROUP BY
holds the ordinals of the group and pivot positions. -/
def pivotStageOne (ref : PivotRef) (allColumns : List PExpr)
    (handled : List String) :
    Except Err (PivotBindState × PivotRef × SelectNode) :=
  match (if ref.groups.isEmpty then stageOneBaseColumns handled allColumns
         else .ok (ref.groups.map (fun r => PExpr.colRef [r] ""))) with
  | .error e => .error e
  | .ok baseList =>
    match assignGroupAliases 0 baseList with
    | (groupSel, gNames, igNames, gLedger) =>
      match assignPivotAliasesCols 0 ref.pivots with
      | (_, pivots2, pivotSel, pLedger) =>
        match assignAggregateAliases 0 ref.aggregates with
        | (aggrSel, aNames, iaNames) =>
          let node := SelectNode.mk (groupSel ++ pivotSel ++ aggrSel) ref.source none
              (groupOrdinals 0 groupSel.length ++ groupOrdinals groupSel.length pivotSel.length)
          .ok ({ internalGroupNames := igNames
                 groupNames := gNames
                 aggregateNames := aNames
                 internalAggregateNames := iaNames
                 internalPivotNames := []
                 internalMapNames := []
                 synthesizedLedger := gLedger ++ pLedger ++ iaNames },
               { ref with source := none, pivots := pivots2 }, node)

/-- PivotStageTwo (lines 138 to 178): wraps stage 1; re-selects the
internal group aliases (grouping by their ordinals), wraps each internal
aggregate column in a list aggregate, then wraps each replaced pivot
expression in a list aggregate named by the pivot-name counter (one per
pivot expression across all columns, in declaration order). -/
def pivotStageTwo (st : PivotBindState) (ref1 : PivotRef) (s1 : SelectNode) :
    PivotBindState × SelectNode :=
  let groupSel := st.internalGroupNames.map (fun g => PExpr.colRef [g] g)
  let listAggrs := st.internalAggregateNames.map
      (fun a => PExpr.func "list" [PExpr.colRef [a] ""] a)
  let pexprs := ref1.pivots.flatMap (fun c => c.pivotExpressions)
  let pivotNames := (List.range pexprs.length).map (fun i => synthName "name" (i + 1))
  let listPivots := List.zipWith (fun nm e => PExpr.func "list" [e] nm) pivotNames pexprs
  let node := SelectNode.mk (groupSel ++ listAggrs ++ listPivots)
      (some (.subqueryRef s1)) none (groupOrdinals 0 st.internalGroupNames.length)
  ({ st with internalPivotNames := st.internalPivotNames ++ pivotNames
             synthesizedLedger := st.synthesizedLedger ++ pivotNames }, node)

/-- PivotStageThree (lines 180 to 208): wraps stage 2; re-selects the
internal group aliases; then loops over the internal pivot names, reading
the internal aggregate name at the same index - an unchecked access that
goes out of bounds when there are more pivot names than aggregate names -
and builds one map function per pivot name. -/
def pivotStageThree (st : PivotBindState) (s2 : SelectNode) :
    Except Err (PivotBindState × SelectNode) :=
  if st.internalAggregateNames.length < st.internalPivotNames.length then
    .error .oob
  else
    let groupSel := st.internalGroupNames.map (fun g => PExpr.colRef [g] g)
    let mapNames := (List.range st.internalPivotNames.length).map
        (fun i => synthName "map" (i + 1))
    let pairs := st.internalPivotNames.zip st.internalAggregateNames
    let mapExprs := List.zipWith (fun nm pr =>
        PExpr.func "map" [PExpr.colRef [pr.1] "", PExpr.colRef [pr.2] ""] nm)
      mapNames pairs
    let node := SelectNode.mk (groupSel ++ mapExprs) (some (.subqueryRef s2)) none []
    .ok ({ st with internalMapNames := st.internalMapNames ++ mapNames
                   synthesizedLedger := st.synthesizedLedger ++ mapNames }, node)

/-- The extraction expression of stage 4 (lines 230 to 239):
array_extract(map_extract(map_column, key), 1) carrying the given alias. -/
def mkMapExtract (mapName : String) (key : Value) (al : String) : PExpr :=
  PExpr.func "array_extract"
    [PExpr.func "map_extract" [PExpr.colRef [mapName] "", PExpr.constant key ""] "",
     PExpr.constant (.int 1) ""] al

/-- The inner loop of stage 4 for one enumerated element (lines 225 to
242): an element whose value tuple is not a singleton raises the FIXME
internal error before anything is emitted; otherwise one extraction per map
column is built.  The sole value and the display name are moved from in the
first iteration (line 233 and line 239), so any later map column would
receive the moved-from value and the moved-from (empty) name. -/
def stageFourElement (maps : List String) (pv : PivotValueElement) :
    Except Err (List PExpr) :=
  match pv.values with
  | [v] =>
      .ok (List.zipWith (fun j m =>
            mkMapExtract m (if j = 0 then v else .moved)
              (if j = 0 then pv.name else ""))
          (List.range maps.length) maps)
  | _ => .error .internalMultiplePivots

/-- PivotStageFour (lines 210 to 245): wraps stage 3; re-selects the
internal group aliases renamed back to their display names (reading the
display-name vector at the same unchecked index), then appends the
extraction expressions of every enumerated element in order. -/
def pivotStageFour (st : PivotBindState) (s3 : SelectNode)
    (pivotValues : List PivotValueElement) : Except Err SelectNode :=
  if st.groupNames.length < st.internalGroupNames.length then .error .oob
  else do
    let groupSel := List.zipWith (fun ig g => PExpr.colRef [ig] g)
        st.internalGroupNames st.groupNames
    let extracts ← exceptMapM (stageFourElement st.internalMapNames) pivotValues
    .ok (SelectNode.mk (groupSel ++ extracts.flatten) (some (.subqueryRef s3)) none [])

/-- Binder::BindPivot (lines 247 to 354): validation, the combination-limit
check (strictly before enumeration and construction), the enumeration, then
the four stages.  Also returns the final bind state so the name ledgers can
be inspected. -/
def bindPivotCore (catalog : String → Option CatalogType) (ref : PivotRef)
    (allColumns : List PExpr) : Except Err (SelectNode × PivotBindState) := do
  let (ref1, handled, total) ← pivotValidate catalog ref
  if total ≥ pivotExpressionLimit then .error .binderPivotLimit
  else do
    let pivotValues ←
      match constructPivots ref1 with
      | none => .error Err.oob
      | some pvs => .ok pvs
    let (st1, ref2, s1) ← pivotStageOne ref1 allColumns handled
    let (st2, s2) := pivotStageTwo st1 ref2 s1
    let (st3, s3) ← pivotStageThree st2 s2
    let s4 ← pivotStageFour st3 s3 pivotValues
    .ok (s4, st3)

/-- The query node BindPivot returns. -/
def bindPivot (catalog : String → Option CatalogType) (ref : PivotRef)
    (allColumns : List PExpr) : Except Err SelectNode :=
  (bindPivotCore catalog ref allColumns).map Prod.fst

/-! ### The unpivot rewriter (Binder::BindUnpivot, lines 356 to 482) -/

/-- Expansion of the columns returned for one star entry (lines 377 to
386): every expansion result must be a plain column reference; each becomes
one concrete entry whose single value and alias are the column name. -/
def starEntriesOf : List PExpr → Except Err (List PivotColumnEntry)
  | [] => .ok []
  | c :: cs =>
      match c with
      | .colRef ns _ => do
          let rest ← starEntriesOf cs
          .ok ({ values := [.str (colNameOf ns)], starEntry := none,
                 entryAlias := colNameOf ns } :: rest)
      | _ => .error .internalNotColumnRef

/-- The star-expansion loop over the unpivot entries (lines 370 to 391);
the expansion of a star expression itself is the external binder's
ExpandStarExpression, passed in as a function. -/
def expandStarEntries (expandEntryStar : PExpr → List PExpr) :
    List PivotColumnEntry → Except Err (List PivotColumnEntry)
  | [] => .ok []
  | e :: es =>
      match e.starEntry with
      | some se => do
          let newOnes ← starEntriesOf (expandEntryStar se)
          let rest ← expandStarEntries expandEntryStar es
          .ok (newOnes ++ rest)
      | none => do
          let rest ← expandStarEntries expandEntryStar es
          .ok (e :: rest)

/-- The handled-column set of the unpivot path (lines 393 to 399): the
stringified values of every entry. -/
def unpivotHandled (entries : List PivotColumnEntry) : List String :=
  entries.foldl (fun h e => e.values.foldl (fun h2 v => ciInsert h2 v.toText) h) []

/-- The source-column partition loop (lines 401 to 415): a column not in
the handled set passes through into the select list; a handled one is
recorded in the name map (under its source spelling) and erased from the
set. -/
def unpivotPartition (handled : List String) (nameMap : List (String × String)) :
    List PExpr → Except Err (List PExpr × List String × List (String × String))
  | [] => .ok ([], handled, nameMap)
  | c :: cs =>
      match c with
      | .colRef ns a =>
          let n := colNameOf ns
          if ciMem handled n then
            unpivotPartition (ciErase handled n) (ciStore nameMap n n) cs
          else do
            let (sel, h2, m2) ← unpivotPartition handled nameMap cs
            .ok (.colRef ns a :: sel, h2, m2)
      | _ => .error .internalNotColumnRef

/-- The display name of one unpivot entry (lines 423 to 436): the alias
when present, else the underscore-join of the mapped source spellings of
its values (separator omitted while the accumulator is empty). -/
def unpivotEntryName (nameMap : List (String × String)) (e : PivotColumnEntry) :
    Except Err String := do
  let gen ← e.values.foldlM (fun acc v =>
      match ciLookup nameMap v.toText with
      | none => .error Err.internalNameMapMissing
      | some nm => .ok (if acc = "" then nm else acc ++ "_" ++ nm)) ""
  .ok (if e.entryAlias = "" then gen else e.entryAlias)

/-- The key-column expressions of one value position (line 441 to 443):
reads entry.values[v_idx] for every entry, an unchecked access that goes
out of bounds for an entry with fewer values than the position demands. -/
def unpivotExprRow (entries : List PivotColumnEntry) (vIdx : Nat) :
    Except Err (List PExpr) :=
  exceptMapM (fun e =>
    match e.values[vIdx]? with
    | none => .error Err.oob
    | some v => .ok (PExpr.colRef [v.toText] "")) entries

/-- The value-expression matrix of lines 437 to 445: iterates the value
positions of the first entry - an unchecked entries[0] access, out of
bounds when the entry list is empty - and builds one expression row per
position. -/
def buildUnpivotExpressions (entries : List PivotColumnEntry)
    : Except Err (List (List PExpr)) :=
  match entries with
  | [] => .error Err.oob
  | e0 :: _ => exceptMapM (unpivotExprRow entries) (List.range e0.values.length)

/-- The unnest over the constant list of display names (lines 447 to
454). -/
def unnestNameExpr (names : List String) (al : String) : PExpr :=
  PExpr.func "unnest" [PExpr.constant (.list (names.map Value.str)) ""] al

/-- One value-column unnest (lines 461 to 468). -/
def unnestValueExpr (exprs : List PExpr) (al : String) : PExpr :=
  PExpr.func "unnest" [PExpr.func "list_value" exprs ""] al

/-- Conjunction of the running filter with one IS NOT NULL predicate on an
unnested value column (lines 469 to 479). -/
def addNotNullFilter (w : Option PExpr) (al : String) : Option PExpr :=
  let f := PExpr.isNotNull (PExpr.colRef [al] "") ""
  match w with
  | some wc => some (PExpr.andExpr wc f "")
  | none => some f

/-- The alias of the i-th value column (line 466): the caller-supplied
column alias when present, else the declared value name. -/
def unpivotValueAlias (ref : PivotRef) (i : Nat) : String :=
  if i < ref.columnNameAlias.length then ref.columnNameAlias.getD i ""
  else ref.unpivotNames.getD i ""

/-- The value-column aliases in position order. -/
def unpivotValueAliases (ref : PivotRef) (count : Nat) : List String :=
  (List.range count).map (unpivotValueAlias ref)

/-- Binder::BindUnpivot: builds the single unnest-based select node and
threads the deferred null-exclusion filter through the where-clause
parameter; the node itself never receives a WHERE clause.  The source
asserts one pivot column and reads ref.pivots[0] without a bounds check. -/
def bindUnpivot (expandEntryStar : PExpr → List PExpr) (ref : PivotRef)
    (allColumns : List PExpr) (whereClause : Option PExpr) :
    Except Err (SelectNode × Option PExpr) := do
  match ref.pivots with
  | [] => .error Err.oob
  | unpivot0 :: _ => do
    let entries ← expandStarEntries expandEntryStar unpivot0.entries
    let handled := unpivotHandled entries
    let (selCols, remaining, nameMap) ← unpivotPartition handled [] allColumns
    if remaining ≠ [] then .error .binderUnpivotNoMatchingEntry
    else do
      let names ← exceptMapM (unpivotEntryName nameMap) entries
      let exprRows ← buildUnpivotExpressions entries
      let keyAlias ←
        match unpivot0.unpivotColNames[0]? with
        | none => .error Err.oob
        | some a => .ok a
      if ref.unpivotNames.length ≠ exprRows.length then
        .error (.binderUnpivotNameMismatch ref.unpivotNames.length exprRows.length)
      else
        let valueAliases := unpivotValueAliases ref exprRows.length
        let valueUnnests := List.zipWith unnestValueExpr exprRows valueAliases
        let finalWhere :=
          if ref.includeNulls then whereClause
          else valueAliases.foldl addNotNullFilter whereClause
        let node := SelectNode.mk
            (selCols ++ [unnestNameExpr names keyAlias] ++ valueUnnests)
            ref.source none []
        .ok (node, finalWhere)

/-! ### The top-level orchestrator (Binder::Bind(PivotRef), lines 484 to 533)

The external name-resolution binder is an interface the orchestrator
consumes (speculative source bind, star expansion, node binding); it is
passed in as a record of functions.  The enclosing binder's sub-query
registry (bind_context) is mutated in exactly one place, the AddSubquery
call at line 531; the AddSubquery at line 522 targets the bind_context of
the freshly created child binder, which is owned by the result, not by the
enclosing scope. -/

/-- An already-bound query node, reduced to the root table index the
orchestrator reads from it. -/
structure BoundNode where
  rootIndex : Nat
deriving DecidableEq

/-- One record of the enclosing scope's sub-query registry. -/
structure RegEntry where
  rootIndex : Nat
  regAlias : String
  regColumnAlias : List String
deriving DecidableEq

/-- The external name-resolution binder interface consumed by Bind. -/
structure ExternalBinder where
  bindSource : FromTable → Except Err Unit
  sourceColumns : List PExpr
  expandEntryStar : PExpr → List PExpr
  bindNode : SelectNode → Except Err BoundNode
  bindWrappedSelect : SelectNode → BoundNode → Except Err BoundNode

/-- What a successful Bind produces: the generated (unbound) first-level
node, the optional WHERE-carrying wrapper node built at lines 523 to 525,
and the data registered in the enclosing scope. -/
structure PivotBindOutcome where
  generated : SelectNode
  wrapQuery : Option SelectNode
  regAlias : String
  regColumnAlias : List String
  rootIndex : Nat

/-- Binder::Bind(PivotRef) up to (but excluding) the final registration:
source check, speculative source bind, star expansion, dispatch on the
aggregate list, node binding, and the optional WHERE wrapper. -/
def bindPivotRefCore (ext : ExternalBinder)
    (catalog : String → Option CatalogType) (ref : PivotRef) :
    Except Err PivotBindOutcome := do
  let src ←
    match ref.source with
    | none => .error Err.internalNoSource
    | some s => .ok s
  ext.bindSource src
  let cols := ext.sourceColumns
  let (node, whereC) ←
    if ref.aggregates.isEmpty then
      bindUnpivot ext.expandEntryStar ref cols none
    else do
      let n ← bindPivot catalog ref cols
      .ok (n, none)
  let bound ← ext.bindNode node
  let al := if ref.refAlias = "" then "__unnamed_pivot" else ref.refAlias
  match whereC with
  | none =>
      .ok { generated := node, wrapQuery := none, regAlias := al,
            regColumnAlias := ref.columnNameAlias, rootIndex := bound.rootIndex }
  | some w =>
      let whereQuery := SelectNode.mk [PExpr.star ""] none (some w) []
      let bound2 ← ext.bindWrappedSelect whereQuery bound
      .ok { generated := node, wrapQuery := some whereQuery, regAlias := al,
            regColumnAlias := ref.columnNameAlias, rootIndex := bound2.rootIndex }

/-- Binder::Bind(PivotRef) including its effect on the enclosing scope's
sub-query registry: the registry is extended by the single AddSubquery call
at line 531 after everything has succeeded, and is left untouched when any
step throws. -/
def bindPivotRef (ext : ExternalBinder) (catalog : String → Option CatalogType)
    (registry : List RegEntry) (ref : PivotRef) :
    Except Err PivotBindOutcome × List RegEntry :=
  match bindPivotRefCore ext catalog ref with
  | .error e => (.error e, registry)
  | .ok out =>
      (.ok out, registry ++ [{ rootIndex := out.rootIndex, regAlias := out.regAlias,
                               regColumnAlias := out.regColumnAlias }])

/-- The concrete declaration on which the literal underscore-join reading
of the claim fails: one pivot column, two pivot expressions, one entry
without alias whose first value stringifies to the empty string. -/
def c1CounterEntry : PivotColumnEntry := { values := [.str "", .str "a"] }

/-- The counterexample declaration for claim C1. -/
def c1CounterRef : PivotRef :=
  { source := some (.base 0)
    pivots := [{ pivotExpressions := [.colRef ["p"] "", .colRef ["q"] ""]
                 entries := [c1CounterEntry] }] }

/-- A small concrete declaration for the C1 witness. -/
def c1WitnessRef : PivotRef :=
  { source := some (.base 0)
    pivots := [{ pivotExpressions := [.colRef ["quarter"] ""]
                 entries := [{ values := [.str "Q1"] }, { values := [.str "Q2"] }] }] }

/-- The zero-pivot-column declaration for the C9 witness. -/
def c9Ref : PivotRef :=
  { source := some (.base 0)
    pivots := []
    aggregates := [.func "sum" [.colRef ["v"] ""] ""] }

/-- A declaration whose Bind fails (no source at all). -/
def c8FailRef : PivotRef := { source := none }

/-- A tiny unpivot declaration whose Bind succeeds. -/
def c8OkRef : PivotRef :=
  { source := some (.base 0)
    pivots := [{ unpivotColNames := ["quarter"]
                 entries := [{ values := [.str "q1"] }, { values := [.str "q2"] }] }]
    unpivotNames := ["amount"] }

/-- A concrete external binder for the C8 witness. -/
def c8Ext : ExternalBinder :=
  { bindSource := fun _ => .ok ()
    sourceColumns := [.colRef ["id"] "", .colRef ["q1"] "", .colRef ["q2"] ""]
    expandEntryStar := fun _ => []
    bindNode := fun _ => .ok { rootIndex := 7 }
    bindWrappedSelect := fun _ _ => .ok { rootIndex := 9 } }

/-- One hundred distinct single-value entries. -/
def c2Entries : List PivotColumnEntry :=
  (List.range 100).map (fun i => { values := [.int i], starEntry := none, entryAlias := "e" })

/-- A declaration with exactly 100 x 100 = 10000 pivot combinations. -/
def c2BigRef : PivotRef :=
  { source := some (.base 0)
    pivots := [{ pivotExpressions := [.colRef ["p"] ""], entries := c2Entries },
               { pivotExpressions := [.colRef ["q"] ""], entries := c2Entries }]
    aggregates := [.func "sum" [.colRef ["v"] ""] ""] }

/-- A declaration with two pivot combinations. -/
def c2SmallRef : PivotRef :=
  { source := some (.base 0)
    pivots := [{ pivotExpressions := [.colRef ["p"] ""]
                 entries := [{ values := [.str "x"] }, { values := [.str "y"] }] }]
    aggregates := [.func "sum" [.colRef ["v"] ""] ""] }

/-- A well-formed pivot column with exactly two distinct entries. -/
def c2WrapCol : PivotColumn :=
  { pivotExpressions := [.colRef ["p"] ""]
    entries := [{ values := [.int 0] }, { values := [.int 1] }] }

/-- Sixty-four two-entry pivot columns: 2 to the 64 combinations, whose
64-bit running product wraps to zero. -/
def c2WrapRef : PivotRef :=
  { source := some (.base 0)
    pivots := List.replicate 64 c2WrapCol
    aggregates := [.func "sum" [.colRef ["v"] ""] ""] }

/-- A column whose IN-list repeats one tuple. -/
def c5DupCol : PivotColumn :=
  { pivotExpressions := [.colRef ["p"] ""]
    entries := [{ values := [.str "x"] }, { values := [.str "x"], entryAlias := "two" }] }

/-- A column whose IN-list tuples all differ. -/
def c5OkCol : PivotColumn :=
  { pivotExpressions := [.colRef ["p"] "", .colRef ["q"] ""]
    entries := [{ values := [.str "x", .str "y"] },
                { values := [.str "x", .str "z"] }] }

/-- The mixed-arity unpivot declaration of the C10 counterexample: the
second entry has one more value than the first. -/
def c10Ref : PivotRef :=
  { source := some (.base 0)
    pivots := [{ unpivotColNames := ["key"]
                 entries := [{ values := [.str "a"] },
                             { values := [.str "b", .str "c"] }] }]
    unpivotNames := ["val"] }

/-- The source columns of the C10 counterexample. -/
def c10Cols : List PExpr :=
  [.colRef ["id"] "", .colRef ["a"] "", .colRef ["b"] "", .colRef ["c"] ""]

/-- Decidable success test on a binder outcome. -/
def unpivotBindOk (x : Except Err (SelectNode × Option PExpr)) : Bool :=
  match x with
  | .ok _ => true
  | .error _ => false

/-- The concrete outcome of binding the small unpivot declaration with
null-exclusion enabled (the default). -/
def c7Out : PivotBindOutcome :=
  match bindPivotRefCore c8Ext (fun _ => none) c8OkRef with
  | .ok o => o
  | .error _ => { generated := SelectNode.mk [] none none [], wrapQuery := none,
                  regAlias := "", regColumnAlias := [], rootIndex := 0 }

/-- The same declaration with null-exclusion disabled. -/
def c7InclRef : PivotRef := { c8OkRef with includeNulls := true }

/-- The concrete outcome of binding it. -/
def c7OutIncl : PivotBindOutcome :=
  match bindPivotRefCore c8Ext (fun _ => none) c7InclRef with
  | .ok o => o
  | .error _ => { generated := SelectNode.mk [] none none [], wrapQuery := none,
                  regAlias := "", regColumnAlias := [], rootIndex := 0 }

/-- The number of expressions of a list that carry no alias. -/
def countEmptyAliases (es : List PExpr) : Nat :=
  es.countP (fun e => decide (e.aliasOf = ""))

/-- The alias-free pivot expressions of a whole declaration. -/
def totalEmptyPivotAliases (cols : List PivotColumn) : Nat :=
  (cols.map (fun c => countEmptyAliases c.pivotExpressions)).sum

/-- The total pivot-expression count of a column list. -/
def pivotExprCount (cols : List PivotColumn) : Nat :=
  (cols.flatMap (fun c => c.pivotExpressions)).length

/-- The synthesized names of one category with counters one to k. -/
def mapRange (cat : String) (k : Nat) : List String :=
  (List.range' 1 k).map (synthName cat)

/-- A name of the reserved synthesized form. -/
def reservedSynthName (n : String) : Prop :=
  ∃ i, 1 ≤ i ∧ (n = synthName "group" i ∨ n = synthName "ref" i
    ∨ n = synthName "aggregate" i ∨ n = synthName "name" i ∨ n = synthName "map" i)

/-- The concrete single-expression declaration for the C3 witness, with two
aggregates. -/
def c3Ref : PivotRef :=
  { source := some (.base 0)
    pivots := [{ pivotExpressions := [.colRef ["quarter"] ""]
                 entries := [{ values := [.str "Q1"] }, { values := [.str "Q2"] }] }]
    aggregates := [.func "sum" [.colRef ["amount"] ""] ""] }

/-- The source columns of the C3 witness. -/
def c3Cols : List PExpr :=
  [.colRef ["region"] "", .colRef ["quarter"] "", .colRef ["amount"] ""]

/-- The concrete two-expression declaration for the second branch of the
C3 witness. -/
def c3MultiRef : PivotRef :=
  { source := some (.base 0)
    pivots := [{ pivotExpressions := [.colRef ["a"] "", .colRef ["b"] ""]
                 entries := [{ values := [.str "x", .str "y"] }] }]
    aggregates := [.func "sum" [.colRef ["v"] ""] "", .func "min" [.colRef ["v"] ""] ""] }

/-- The C4 counterexample declaration: two aggregates but a single pivot
expression. -/
def c4Ref : PivotRef :=
  { source := some (.base 0)
    pivots := [{ pivotExpressions := [.colRef ["p"] ""]
                 entries := [{ values := [.str "x"] }] }]
    aggregates := [.func "sum" [.colRef ["v"] ""] "", .func "min" [.colRef ["v"] ""] ""] }

/-- The internal-map-name count carried by a full-pipeline outcome. -/
def c4MapCount (r : Except Err (SelectNode × PivotBindState)) : Nat :=
  match r with
  | .ok (_, st) => st.internalMapNames.length
  | .error _ => 0

/-- The declaration of the C6 counterexample: no explicit row list, so the
unhandled source columns become group columns with synthesized aliases. -/
def c6Ref : PivotRef :=
  { source := some (.base 0)
    pivots := [{ pivotExpressions := [.colRef ["q"] ""]
                 entries := [{ values := [.str "Q1"] }, { values := [.str "Q2"] }] }]
    aggregates := [.func "sum" [.colRef ["v"] ""] ""] }

/-- Source columns of the C6 counterexample: the first one is spelled by the
user exactly like the first synthesized group alias. -/
def c6Cols : List PExpr :=
  [.colRef ["__internal_pivot_group1"] "", .colRef ["q"] "", .colRef ["v"] ""]

/-- The bound state of the C6 counterexample pipeline. -/
def c6CtrSt : PivotBindState :=
  match bindPivotCore (fun _ => none) c6Ref c6Cols with
  | .ok (_, st) => st
  | .error _ => {}

/-- Source columns of the C6 witness. -/
def c6WCols : List PExpr :=
  [.colRef ["region"] "", .colRef ["q"] "", .colRef ["v"] ""]

/-- The successfully bound outcome of the C6 witness declaration. -/
def c6Out : SelectNode × PivotBindState :=
  match bindPivotCore (fun _ => none) c6Ref c6WCols with
  | .ok o => o
  | .error _ => (SelectNode.mk [] none none [], {})

/-! ## Theorems

First a block of shared helper lemmas about the decimal model, the
synthesized names and the enumerator; then one theorem (plus witness or
counterexample) per claim. -/

/-- Digit rendering is injective on actual digits. -/
theorem digitChar_inj_fin : ∀ a b : Fin 10, digitChar a.val = digitChar b.val → a = b := by
  decide

/-- Decimal digits are digits. -/
theorem decDigits_lt_ten : ∀ n d, d ∈ decDigits n → d < 10 := by
  intro n
  induction n using Nat.strong_induction_on with
  | _ n ih =>
    match n with
    | 0 => intro d hd; simp [decDigits] at hd
    | m+1 =>
      intro d hd
      rw [decDigits] at hd
      rcases List.mem_cons.mp hd with h | h
      · subst h; exact Nat.mod_lt _ (by decide)
      · exact ih ((m+1) / 10) (Nat.div_lt_self (Nat.succ_pos m) (by decide)) d h

/-- The digit list recomposes to the number it came from. -/
theorem fromDigits_decDigits (n : Nat) : fromDigits (decDigits n) = n := by
  induction n using Nat.strong_induction_on with
  | _ n ih =>
    match n with
    | 0 => simp [decDigits, fromDigits]
    | m+1 =>
      rw [decDigits, fromDigits,
          ih ((m+1) / 10) (Nat.div_lt_self (Nat.succ_pos m) (by decide))]
      omega

/-- decDigits is injective. -/
theorem decDigits_inj {a b : Nat} (h : decDigits a = decDigits b) : a = b := by
  have := congrArg fromDigits h
  rwa [fromDigits_decDigits, fromDigits_decDigits] at this

/-- Mapping digitChar over digit lists is injective. -/
theorem map_digitChar_inj : ∀ xs ys : List Nat, (∀ d ∈ xs, d < 10) → (∀ d ∈ ys, d < 10) →
    xs.map digitChar = ys.map digitChar → xs = ys := by
  intro xs
  induction xs with
  | nil => intro ys _ _ h; cases ys with
    | nil => rfl
    | cons y ys => simp at h
  | cons x xs ih =>
    intro ys hx hy h
    cases ys with
    | nil => simp at h
    | cons y ys =>
      simp only [List.map_cons, List.cons.injEq] at h
      have hxy : x = y := by
        have hx10 : x < 10 := hx x (by simp)
        have hy10 : y < 10 := hy y (by simp)
        have := digitChar_inj_fin ⟨x, hx10⟩ ⟨y, hy10⟩ h.1
        exact congrArg Fin.val this
      have := ih ys (fun d hd => hx d (by simp [hd])) (fun d hd => hy d (by simp [hd])) h.2
      rw [hxy, this]

/-- The decimal rendering of a positive number is never the rendering of
zero. -/
theorem toDecimalString_pos_ne_zero (m : Nat) : toDecimalString (m+1) ≠ "0" := by
  intro h
  rw [toDecimalString] at h
  have hd := congrArg String.data h
  simp only [String.data] at hd
  have : ((decDigits (m+1)).map digitChar).reverse = ['0'] := hd
  have hlist : (decDigits (m+1)).map digitChar = ['0'] := by
    have := congrArg List.reverse this
    simpa using this
  have : decDigits (m+1) = [0] := by
    have h0 : ([0] : List Nat).map digitChar = ['0'] := by decide
    exact map_digitChar_inj _ _ (decDigits_lt_ten _) (by intro d hd; simp at hd; omega)
      (hlist.trans h0.symm)
  have := congrArg fromDigits this
  rw [fromDigits_decDigits] at this
  simp [fromDigits] at this

/-- The model of std::to_string is injective. -/
theorem toDecimalString_inj : Function.Injective toDecimalString := by
  intro a b h
  match a, b with
  | 0, 0 => rfl
  | 0, m+1 => exact absurd h.symm (toDecimalString_pos_ne_zero m)
  | m+1, 0 => exact absurd h (toDecimalString_pos_ne_zero m)
  | a+1, b+1 =>
    rw [toDecimalString, toDecimalString] at h
    have hd : ((decDigits (a+1)).map digitChar).reverse
        = ((decDigits (b+1)).map digitChar).reverse := congrArg String.data h
    have hmap := congrArg List.reverse hd
    simp only [List.reverse_reverse] at hmap
    exact decDigits_inj (map_digitChar_inj _ _ (decDigits_lt_ten _) (decDigits_lt_ten _) hmap)

/-- Two synthesized names whose category words start with different
characters are different, whatever the counters. -/
theorem synthName_ne_of_head {c1 c2 : String} {a b : Char} {s1 s2 : List Char}
    (h1 : c1.data = a :: s1) (h2 : c2.data = b :: s2) (hab : a ≠ b)
    (i j : Nat) : synthName c1 i ≠ synthName c2 j := by
  intro h
  have hd := congrArg String.data h
  rw [synthName, synthName, String.data_append, String.data_append,
      String.data_append, String.data_append, List.append_assoc, List.append_assoc] at hd
  have := List.append_cancel_left hd
  rw [h1, h2] at this
  simp only [List.cons_append, List.cons.injEq] at this
  exact hab this.1

/-- For a fixed category the synthesized name determines the counter. -/
theorem synthName_inj (cat : String) : Function.Injective (synthName cat) := by
  intro i j h
  have hd := congrArg String.data h
  rw [synthName, synthName, String.data_append, String.data_append,
      String.data_append, String.data_append, List.append_assoc, List.append_assoc] at hd
  have h2 := List.append_cancel_left (List.append_cancel_left hd)
  exact toDecimalString_inj (String.ext h2)

/-- Extension distributes over consing a level entry onto a combination. -/
theorem extendElement_combo (cur : PivotValueElement) (e : PivotColumnEntry)
    (combo : List PivotColumnEntry) :
    ({ values := (extendElement cur e).values
         ++ ((combo.map (fun en => en.values)).flatten)
       name := (combo.map entryLevelName).foldl combineName (extendElement cur e).name }
       : PivotValueElement)
    = { values := cur.values ++ (((e :: combo).map (fun en => en.values)).flatten)
        name := ((e :: combo).map entryLevelName).foldl combineName cur.name } := by
  simp [extendElement, List.append_assoc]

/-- The enumerator recursion is exactly a map over the depth-first cross
product of the entry lists of the remaining levels. -/
theorem constructPivotsGo_eq (ps : List PivotColumn) (cur : PivotValueElement) :
    constructPivotsGo ps cur =
      (listProd (ps.map (fun c => c.entries))).map (fun combo =>
        { values := cur.values ++ ((combo.map (fun en => en.values)).flatten)
          name := (combo.map entryLevelName).foldl combineName cur.name }) := by
  induction ps generalizing cur with
  | nil => simp [constructPivotsGo, listProd]
  | cons p rest ih =>
    rw [constructPivotsGo, List.map_cons, listProd, List.map_flatMap]
    congr 1
    funext e
    rw [ih, List.map_map]
    congr 1
    funext combo
    simpa using extendElement_combo cur e combo

/-- The cross product has as many combinations as the product of the level
sizes. -/
theorem listProd_length (ls : List (List α)) :
    (listProd ls).length = (ls.map List.length).prod := by
  induction ls with
  | nil => simp [listProd]
  | cons xs rest ih =>
    rw [listProd, List.length_flatMap]
    have h1 : List.map (List.length ∘ fun x => List.map (fun combo => x :: combo) (listProd rest)) xs
        = List.map (fun _ => (listProd rest).length) xs := by
      congr 1
      funext x
      simp [Function.comp]
    rw [h1, List.map_const', List.sum_replicate, smul_eq_mul, ih, List.map_cons,
        List.prod_cons]

/-- Bind of a success in the Except monad. -/
@[simp] theorem except_bind_ok {ε : Type u} {α β : Type v} (a : α) (f : α → Except ε β) :
    (Except.ok a >>= f) = f a := rfl

/-- Bind of a failure in the Except monad. -/
@[simp] theorem except_bind_error {ε : Type u} {α β : Type v} (e : ε) (f : α → Except ε β) :
    ((Except.error e : Except ε α) >>= f) = Except.error e := rfl

/-- Pure in the Except monad. -/
@[simp] theorem except_pure_eq {ε : Type u} {α : Type v} (a : α) :
    (pure a : Except ε α) = Except.ok a := rfl

/-- Map over a success in the Except monad. -/
@[simp] theorem except_map_ok {ε : Type u} {α β : Type v} (a : α) (f : α → β) :
    (Except.ok a : Except ε α).map f = Except.ok (f a) := rfl

/-- Map over a failure in the Except monad. -/
@[simp] theorem except_map_error {ε : Type u} {α β : Type v} (e : ε) (f : α → β) :
    ((Except.error e : Except ε α).map f : Except ε β) = Except.error e := rfl

/-- C1, amended. For every declaration with at least one pivot column the
Pivot-Value Enumerator produces exactly the depth-first cross product of
the entry lists, in declaration order of the pivot columns and, within each
column, declared entry order - in particular exactly the product of the
entry counts many elements - and each display name is built per level from
the alias when non-empty, else from the stringified values, the parts
joined by an underscore that is omitted whenever the already accumulated
name is empty (producedDisplayName). -/
theorem c1_enumerator_cross_product (ref : PivotRef) (p : PivotColumn)
    (ps : List PivotColumn) (hp : ref.pivots = p :: ps) :
    constructPivots ref =
      some ((listProd (ref.pivots.map (fun c => c.entries))).map (fun combo =>
        { values := (combo.map (fun en => en.values)).flatten
          name := producedDisplayName combo }))
    ∧ (constructPivots ref).map List.length
        = some ((ref.pivots.map (fun c => c.entries.length)).prod) := by
  have hmain : constructPivots ref =
      some ((listProd (ref.pivots.map (fun c => c.entries))).map (fun combo =>
        { values := (combo.map (fun en => en.values)).flatten
          name := producedDisplayName combo })) := by
    simp only [constructPivots, hp]
    rw [constructPivotsGo_eq]
    rfl
  refine ⟨hmain, ?_⟩
  rw [hmain]
  simp only [Option.map_some', List.length_map, listProd_length, List.map_map]
  exact congrArg (fun l => some (List.prod l)) (List.map_congr_left (fun c _ => rfl))

/-- C1 counterexample: the enumerator names this single element "a", while
the underscore-join of its stringified values described by the claim is
"_a". -/
theorem c1_counterexample :
    constructPivots c1CounterRef
      = some [{ values := [.str "", .str "a"], name := "a" }]
    ∧ claimedDisplayName [c1CounterEntry] = "_a"
    ∧ ("a" : String) ≠ "_a" := by
  refine ⟨rfl, rfl, by decide⟩

/-- Witness for C1: the theorem applied to a concrete declaration, with
both sides evaluated. -/
theorem c1_enumerator_cross_product_witness :
    constructPivots c1WitnessRef
      = some [{ values := [.str "Q1"], name := "Q1" },
              { values := [.str "Q2"], name := "Q2" }]
    ∧ (constructPivots c1WitnessRef).map List.length = some 2 := by
  have h := c1_enumerator_cross_product c1WitnessRef _ _ rfl
  exact ⟨by rw [h.1]; rfl, by rw [h.2]; rfl⟩

/-- C9. With a valid aggregate list but zero pivot columns, validation
passes with a combination total of one (below the ceiling) and BindPivot
then reaches the unchecked ref.pivots[0] access inside ConstructPivots, an
out-of-bounds outcome rather than a validation error; with at least one
pivot column the enumerator access is in bounds (it returns a result). -/
theorem c9_zero_pivots_out_of_bounds (catalog : String → Option CatalogType)
    (ref : PivotRef) (allColumns : List PExpr) (ref1 : PivotRef)
    (handled : List String) (total : Nat)
    (hp : ref.pivots = [])
    (hv : pivotValidate catalog ref = .ok (ref1, handled, total)) :
    bindPivot catalog ref allColumns = .error Err.oob
    ∧ total = 1
    ∧ (∀ ref2 : PivotRef, ref2.pivots ≠ [] → ∃ l, constructPivots ref2 = some l) := by
  have hv2 := hv
  rw [pivotValidate] at hv2
  cases hva : validateAggregates ref.aggregates [] with
  | error e => rw [hva] at hv2; simp at hv2
  | ok h0 =>
    rw [hva, hp] at hv2
    simp [validatePivotColumns] at hv2
    obtain ⟨h1, h2, h3⟩ := hv2
    constructor
    · rw [bindPivot, bindPivotCore]
      rw [hv]
      simp only [except_bind_ok]
      rw [← h3]
      have hlim : ¬ (1 ≥ pivotExpressionLimit) := by decide
      simp only [ge_iff_le, hlim, if_neg, ite_false]
      have hrp : ref1.pivots = [] := by rw [← h1]
      simp [constructPivots, hrp]
    · refine ⟨h3.symm, ?_⟩
      intro ref2 hne
      cases hp2 : ref2.pivots with
      | nil => exact absurd hp2 hne
      | cons p ps =>
        refine ⟨constructPivotsGo (p :: ps) { values := [], name := "" }, ?_⟩
        simp [constructPivots, hp2]

/-- Witness for C9: the theorem applied to a concrete declaration whose
aggregate validation passes. -/
theorem c9_zero_pivots_out_of_bounds_witness :
    bindPivot (fun _ => none) c9Ref [] = .error Err.oob :=
  (c9_zero_pivots_out_of_bounds (fun _ => none) c9Ref [] c9Ref ["v"] 1 rfl rfl).1

/-- C8. The enclosing scope's sub-query registry is unchanged whenever any
validation or binding step of Bind fails (the caller sees exactly the one
propagated error and no partial registration), and it is extended by
exactly the one registration of the bound result when every step
succeeds. -/
theorem c8_no_partial_registration (ext : ExternalBinder)
    (catalog : String → Option CatalogType) (registry : List RegEntry)
    (ref : PivotRef) :
    (∀ e, (bindPivotRef ext catalog registry ref).1 = .error e →
      (bindPivotRef ext catalog registry ref).2 = registry)
    ∧ (∀ out, (bindPivotRef ext catalog registry ref).1 = .ok out →
      (bindPivotRef ext catalog registry ref).2
        = registry ++ [{ rootIndex := out.rootIndex, regAlias := out.regAlias,
                         regColumnAlias := out.regColumnAlias }]) := by
  unfold bindPivotRef
  cases h : bindPivotRefCore ext catalog ref with
  | error e => simp
  | ok out =>
    constructor
    · intro e2 he; simp at he
    · intro out2 ho
      simp at ho
      rw [ho]

/-- Witness for C8: a failing Bind leaves a concrete registry unchanged and
a succeeding Bind appends exactly one entry to it. -/
theorem c8_no_partial_registration_witness :
    (bindPivotRef c8Ext (fun _ => none) [] c8FailRef).2 = []
    ∧ (bindPivotRef c8Ext (fun _ => none) [] c8OkRef).2
        = [{ rootIndex := 9, regAlias := "__unnamed_pivot", regColumnAlias := [] }] := by
  constructor
  · exact (c8_no_partial_registration c8Ext (fun _ => none) [] c8FailRef).1
      Err.internalNoSource rfl
  · have hx : (bindPivotRef c8Ext (fun _ => none) [] c8OkRef).1
        = Except.ok (match (bindPivotRef c8Ext (fun _ => none) [] c8OkRef).1 with
                     | .ok o => o
                     | .error _ => { generated := SelectNode.mk [] none none []
                                     wrapQuery := none, regAlias := ""
                                     regColumnAlias := [], rootIndex := 0 }) := by rfl
    have h := (c8_no_partial_registration c8Ext (fun _ => none) [] c8OkRef).2 _ hx
    rw [h]
    rfl

/-- The only error the stage-1 source-column scan can raise is the
not-a-column-reference internal error. -/
theorem stageOneBaseColumns_error (handled : List String) :
    ∀ cs e, stageOneBaseColumns handled cs = .error e → e = .internalNotColumnRef := by
  intro cs
  induction cs with
  | nil => intro e h; simp [stageOneBaseColumns] at h
  | cons c cs ih =>
    intro e h
    cases c with
    | colRef ns a =>
      rw [stageOneBaseColumns] at h
      cases hr : stageOneBaseColumns handled cs with
      | error e2 =>
        rw [hr] at h
        simp at h
        exact h ▸ ih e2 hr
      | ok rest =>
        rw [hr] at h
        simp at h
        split at h <;> simp at h
    | constant v al => injection h with h1; exact h1.symm
    | func f cs2 al => injection h with h1; exact h1.symm
    | star al => injection h with h1; exact h1.symm
    | isNotNull c2 al => injection h with h1; exact h1.symm
    | andExpr l r al => injection h with h1; exact h1.symm
    | subqueryExpr al => injection h with h1; exact h1.symm
    | windowExpr f cs2 al => injection h with h1; exact h1.symm

/-- The only error stage 1 can raise is the not-a-column-reference internal
error. -/
theorem pivotStageOne_error (ref : PivotRef) (cols : List PExpr)
    (handled : List String) (e : Err)
    (h : pivotStageOne ref cols handled = .error e) : e = .internalNotColumnRef := by
  rw [pivotStageOne] at h
  by_cases hg : ref.groups.isEmpty
  · rw [if_pos hg] at h
    cases hb : stageOneBaseColumns handled cols with
    | error e2 => rw [hb] at h; simp at h; exact h ▸ stageOneBaseColumns_error handled cols e2 hb
    | ok base => rw [hb] at h; simp at h
  · rw [if_neg hg] at h
    simp at h

/-- The only error stage 3 can raise is the out-of-bounds outcome. -/
theorem pivotStageThree_error (st : PivotBindState) (s2 : SelectNode) (e : Err)
    (h : pivotStageThree st s2 = .error e) : e = .oob := by
  rw [pivotStageThree] at h
  split at h
  · injection h with h1; exact h1.symm
  · simp at h

/-- The only error the stage-4 element loop can raise is the FIXME internal
error. -/
theorem stageFourElement_error (maps : List String) (pv : PivotValueElement) (e : Err)
    (h : stageFourElement maps pv = .error e) : e = .internalMultiplePivots := by
  rw [stageFourElement] at h
  split at h
  · simp at h
  · injection h with h1; exact h1.symm

/-- An error of the monadic map is an error of the mapped function on some
list element. -/
theorem exceptMapM_error (f : α → Except Err β) :
    ∀ l e, exceptMapM f l = .error e → ∃ a ∈ l, f a = .error e := by
  intro l
  induction l with
  | nil => intro e h; simp [exceptMapM] at h
  | cons a as ih =>
    intro e h
    rw [exceptMapM] at h
    cases hf : f a with
    | error e2 =>
      rw [hf] at h; simp at h
      exact ⟨a, by simp, h ▸ hf⟩
    | ok b =>
      rw [hf] at h; simp at h
      cases hr : exceptMapM f as with
      | error e2 =>
        rw [hr] at h; simp at h
        obtain ⟨a2, ha2, hfa2⟩ := ih e2 hr
        exact ⟨a2, by simp [ha2], h ▸ hfa2⟩
      | ok bs => rw [hr] at h; simp at h

/-- The only errors stage 4 can raise are the out-of-bounds outcome and the
FIXME internal error. -/
theorem pivotStageFour_error (st : PivotBindState) (s3 : SelectNode)
    (pvs : List PivotValueElement) (e : Err)
    (h : pivotStageFour st s3 pvs = .error e) :
    e = .oob ∨ e = .internalMultiplePivots := by
  rw [pivotStageFour] at h
  split at h
  · injection h with h1; exact Or.inl h1.symm
  · cases hm : exceptMapM (stageFourElement st.internalMapNames) pvs with
    | error e2 =>
      rw [hm] at h; simp at h
      obtain ⟨pv, _, hpv⟩ := exceptMapM_error _ pvs e2 hm
      exact Or.inr (h ▸ stageFourElement_error _ pv e2 hpv)
    | ok ex => rw [hm] at h; simp at h

/-- The per-column validation returns the entry count of the column it
accepted. -/
theorem validatePivotColumn_entries (catalog : String → Option CatalogType)
    (handled : List String) (col c2 : PivotColumn) (h2 : List String) (k : Nat)
    (h : validatePivotColumn catalog handled col = .ok (c2, h2, k)) :
    k = c2.entries.length := by
  rw [validatePivotColumn] at h
  cases he : expandEnum catalog col with
  | error e => rw [he] at h; exact absurd h (by simp)
  | ok colE =>
    rw [he] at h
    simp only [except_bind_ok] at h
    cases hx : extractPivotList colE.pivotExpressions handled with
    | error e => rw [hx] at h; exact absurd h (by simp)
    | ok handledX =>
      rw [hx] at h
      simp only [except_bind_ok] at h
      cases hc : checkPivotColumnEntries colE with
      | error e => rw [hc] at h; exact absurd h (by simp)
      | ok u =>
        obtain rfl : u = () := rfl
        rw [hc] at h
        injection h with h1
        injection h1 with hcol hrest
        injection hrest with hh hk
        rw [← hk, hcol]

/-- The combination total returned by the column loop is the left fold of
the accepted columns' entry counts under 64-bit wrapping multiplication. -/
theorem validatePivotColumns_total (catalog : String → Option CatalogType) :
    ∀ (cols : List PivotColumn) (handled : List String) (total : Nat)
      (cols2 : List PivotColumn) (handled2 : List String) (total2 : Nat),
    validatePivotColumns catalog handled total cols = .ok (cols2, handled2, total2) →
    total2 = (cols2.map (fun c => c.entries.length)).foldl
        (fun a k => a * k % 2 ^ 64) total := by
  intro cols
  induction cols with
  | nil =>
    intro handled total cols2 handled2 total2 h
    rw [validatePivotColumns] at h
    injection h with h1
    injection h1 with hcols hrest
    injection hrest with hh ht
    rw [← hcols, ← ht]
    rfl
  | cons c cs ih =>
    intro handled total cols2 handled2 total2 h
    rw [validatePivotColumns] at h
    cases hc : validatePivotColumn catalog handled c with
    | error e => rw [hc] at h; exact absurd h (by simp)
    | ok trip =>
      rw [hc] at h
      obtain ⟨c2, handledB, k⟩ := trip
      simp only [except_bind_ok] at h
      cases hrec : validatePivotColumns catalog handledB (total * k % 2 ^ 64) cs with
      | error e => rw [hrec] at h; exact absurd h (by simp)
      | ok trip2 =>
        rw [hrec] at h
        obtain ⟨cs2, handledC, totalC⟩ := trip2
        simp only [except_bind_ok, except_pure_eq] at h
        injection h with h1
        injection h1 with hcols hrest
        injection hrest with hh ht
        rw [← hcols, ← ht]
        rw [List.map_cons, List.foldl_cons]
        rw [validatePivotColumn_entries catalog handled c c2 handledB k hc] at hrec
        exact ih handledB (total * c2.entries.length % 2 ^ 64) cs2 handledC totalC hrec

/-- The total returned by the whole validation is the 64-bit wrapped
product of the expanded pivot columns' entry counts, starting at one. -/
theorem pivotValidate_total (catalog : String → Option CatalogType)
    (ref : PivotRef) (ref1 : PivotRef) (handled : List String) (total : Nat)
    (hv : pivotValidate catalog ref = .ok (ref1, handled, total)) :
    total = (ref1.pivots.map (fun c => c.entries.length)).foldl
        (fun a k => a * k % 2 ^ 64) 1 := by
  rw [pivotValidate] at hv
  cases ha : validateAggregates ref.aggregates [] with
  | error e => rw [ha] at hv; exact absurd hv (by simp)
  | ok handled0 =>
    rw [ha] at hv
    simp only [except_bind_ok] at hv
    cases hc : validatePivotColumns catalog handled0 1 ref.pivots with
    | error e => rw [hc] at hv; exact absurd hv (by simp)
    | ok trip =>
      rw [hc] at hv
      obtain ⟨pivots2, handled2, t⟩ := trip
      simp only [except_bind_ok, except_pure_eq] at hv
      injection hv with h1
      injection h1 with href hrest
      injection hrest with hh ht
      rw [← href]
      show total = (pivots2.map (fun c => c.entries.length)).foldl
        (fun a k => a * k % 2 ^ 64) 1
      rw [← ht]
      exact validatePivotColumns_total catalog ref.pivots handled0 1
        pivots2 handled2 t hc

/-- For a validated declaration, BindPivot raises the limit error exactly
when the returned (wrapped) total reaches the ceiling; below the ceiling
every error the later steps can raise differs from the limit error. -/
theorem bindPivot_limit_iff (catalog : String → Option CatalogType)
    (ref : PivotRef) (cols : List PExpr) (ref1 : PivotRef)
    (handled : List String) (total : Nat)
    (hv : pivotValidate catalog ref = .ok (ref1, handled, total)) :
    bindPivot catalog ref cols = .error .binderPivotLimit
      ↔ pivotExpressionLimit ≤ total := by
  rw [bindPivot, bindPivotCore, hv]
  simp only [except_bind_ok]
  by_cases hlim : total ≥ pivotExpressionLimit
  · simp only [hlim, if_true, ge_iff_le, if_pos]
    simp [hlim]
  · rw [if_neg hlim]
    simp only [ge_iff_le] at hlim
    constructor
    · intro h
      exfalso
      cases hc : constructPivots ref1 with
      | none => rw [hc] at h; simp at h
      | some pvs =>
        rw [hc] at h
        simp only [except_bind_ok] at h
        cases h1 : pivotStageOne ref1 cols handled with
        | error e1 =>
          rw [h1] at h; simp at h
          have := pivotStageOne_error ref1 cols handled e1 h1
          rw [h] at this
          exact Err.noConfusion this
        | ok t1 =>
          rw [h1] at h
          obtain ⟨st1, ref2, s1⟩ := t1
          simp only [except_bind_ok] at h
          cases h3 : pivotStageThree (pivotStageTwo st1 ref2 s1).1 (pivotStageTwo st1 ref2 s1).2 with
          | error e3 =>
            rw [h3] at h; simp at h
            have := pivotStageThree_error _ _ e3 h3
            rw [h] at this
            exact Err.noConfusion this
          | ok t3 =>
            rw [h3] at h
            obtain ⟨st3, s3⟩ := t3
            simp only [except_bind_ok] at h
            cases h4 : pivotStageFour st3 s3 pvs with
            | error e4 =>
              rw [h4] at h; simp at h
              have := pivotStageFour_error st3 s3 pvs e4 h4
              rw [h] at this
              rcases this with h5 | h5 <;> exact Err.noConfusion h5
            | ok s4 => rw [h4] at h; simp at h
    · intro h
      exact absurd h hlim

/-- C2. For a declaration accepted by validation, the combination total is
the product of the expanded pivot columns' entry counts accumulated with
unsigned 64-bit wrapping multiplication - not the unbounded product - and
BindPivot fails with the binder limit error exactly when that wrapped total
reaches the 10000 ceiling: a wrapped total of 10000 is rejected, 9999 is
admitted, the rejection precedes enumeration and stage construction, and an
error result carries no query tree; a declaration whose true combination
count is a multiple of 2 to the 64 wraps below the ceiling and is
admitted. -/
theorem c2_combination_ceiling (catalog : String → Option CatalogType)
    (ref : PivotRef) (cols : List PExpr) (ref1 : PivotRef)
    (handled : List String) (total : Nat)
    (hv : pivotValidate catalog ref = .ok (ref1, handled, total)) :
    total = (ref1.pivots.map (fun c => c.entries.length)).foldl
        (fun a k => a * k % 2 ^ 64) 1
    ∧ (bindPivot catalog ref cols = .error .binderPivotLimit
        ↔ pivotExpressionLimit ≤ total) :=
  ⟨pivotValidate_total catalog ref ref1 handled total hv,
   bindPivot_limit_iff catalog ref cols ref1 handled total hv⟩

/-- Witness for C2: a 10000-combination declaration is rejected with the
limit error and a small one is not; both totals agree with the wrapped
product. -/
theorem c2_combination_ceiling_witness :
    bindPivot (fun _ => none) c2BigRef [] = .error .binderPivotLimit
    ∧ ¬ (bindPivot (fun _ => none) c2SmallRef [] = .error .binderPivotLimit)
    ∧ (10000 : Nat) = (c2BigRef.pivots.map (fun c => c.entries.length)).foldl
        (fun a k => a * k % 2 ^ 64) 1 := by
  refine ⟨?_, ?_, ?_⟩
  · exact ((c2_combination_ceiling (fun _ => none) c2BigRef [] c2BigRef
      ["v", "p", "q"] 10000 (by rfl)).2).2 (by decide)
  · intro hc
    exact absurd (((c2_combination_ceiling (fun _ => none) c2SmallRef [] c2SmallRef
      ["v", "p"] 2 (by rfl)).2).1 hc) (by decide)
  · exact (c2_combination_ceiling (fun _ => none) c2BigRef [] c2BigRef
      ["v", "p", "q"] 10000 (by rfl)).1

set_option maxRecDepth 8192 in
/-- C2 counterexample: sixty-four two-entry pivot columns have 2 to the 64
combinations, yet the 64-bit running product wraps to zero, so the ceiling
check admits the declaration and no limit error is raised, refuting the
claim that rejection happens exactly when the product of the entry counts
reaches 10000. -/
theorem c2_counterexample :
    pivotValidate (fun _ => none) c2WrapRef = .ok (c2WrapRef, ["v", "p"], 0)
    ∧ (c2WrapRef.pivots.map (fun c => c.entries.length)).prod = 2 ^ 64
    ∧ pivotExpressionLimit ≤ 2 ^ 64
    ∧ ¬ (bindPivot (fun _ => none) c2WrapRef [] = .error .binderPivotLimit) := by
  refine ⟨by rfl, by rfl, by decide, ?_⟩
  intro h
  exact absurd ((bindPivot_limit_iff (fun _ => none) c2WrapRef [] c2WrapRef
    ["v", "p"] 0 (by rfl)).1 h) (by decide)

/-- On tuples of one fixed arity the duplicate-detection key determines the
tuple. -/
theorem keyOfValues_inj (n : Nat) (v1 v2 : List Value)
    (h1 : v1.length = n) (h2 : v2.length = n)
    (h : keyOfValues v1 = keyOfValues v2) : v1 = v2 := by
  by_cases hn : n = 1
  · subst hn
    obtain ⟨a, ha⟩ := List.length_eq_one.mp h1
    obtain ⟨b, hb⟩ := List.length_eq_one.mp h2
    subst ha hb
    rw [keyOfValues, keyOfValues] at h
    simpa using h
  · rw [keyOfValues, keyOfValues, if_neg (by omega), if_neg (by omega)] at h
    injection h

/-- Under a fixed arity, key distinctness and tuple distinctness agree. -/
theorem keysNodup_iff_valuesNodup (n : Nat) :
    ∀ entries : List PivotColumnEntry, (∀ e ∈ entries, e.values.length = n) →
    ((entries.map dedupKey).Nodup ↔ (entries.map (fun e => e.values)).Nodup) := by
  intro entries
  induction entries with
  | nil => intro _; simp
  | cons e es ih =>
    intro harity
    simp only [List.map_cons, List.nodup_cons]
    have hrest := ih (fun e2 he2 => harity e2 (by simp [he2]))
    constructor
    · rintro ⟨hni, hnd⟩
      refine ⟨?_, hrest.mp hnd⟩
      intro hmem
      obtain ⟨e2, he2, hv⟩ := List.mem_map.mp hmem
      exact hni (List.mem_map.mpr ⟨e2, he2, by rw [dedupKey, dedupKey, hv]⟩)
    · rintro ⟨hni, hnd⟩
      refine ⟨?_, hrest.mpr hnd⟩
      intro hmem
      obtain ⟨e2, he2, hk⟩ := List.mem_map.mp hmem
      exact hni (List.mem_map.mpr ⟨e2, he2,
        keyOfValues_inj n e2.values e.values (harity e2 (by simp [he2]))
          (harity e (by simp)) hk⟩)

/-- Under a fixed arity the entry loop accepts exactly when the keys of the
entries are distinct and avoid the already seen set. -/
theorem checkPivotEntriesLoop_ok_iff (n : Nat) :
    ∀ (entries : List PivotColumnEntry) (seen : List Value),
    (∀ e ∈ entries, e.values.length = n) →
    (checkPivotEntriesLoop n seen entries = .ok ()
      ↔ ((entries.map dedupKey).Nodup ∧ ∀ e ∈ entries, dedupKey e ∉ seen)) := by
  intro entries
  induction entries with
  | nil => intro seen _; simp [checkPivotEntriesLoop]
  | cons e es ih =>
    intro seen harity
    rw [checkPivotEntriesLoop]
    by_cases hseen : dedupKey e ∈ seen
    · rw [if_pos hseen]
      simp only [List.map_cons, List.nodup_cons]
      constructor
      · intro h; exact absurd h (by simp)
      · rintro ⟨_, hall⟩
        exact absurd hseen (hall e (by simp))
    · rw [if_neg hseen, if_neg (by simp [harity e (by simp)])]
      rw [ih (dedupKey e :: seen) (fun e2 he2 => harity e2 (by simp [he2]))]
      simp only [List.map_cons, List.nodup_cons, List.mem_cons]
      constructor
      · rintro ⟨hnd, hall⟩
        refine ⟨⟨?_, hnd⟩, ?_⟩
        · intro hmem
          obtain ⟨e2, he2, hk⟩ := List.mem_map.mp hmem
          exact (hall e2 he2) (by simp [hk])
        · rintro e2 (rfl | he2)
          · exact hseen
          · intro hin
            exact (hall e2 he2) (by simp [hin])
      · rintro ⟨⟨hni, hnd⟩, hall⟩
        refine ⟨hnd, ?_⟩
        intro e2 he2
        intro hin
        rcases hin with hk | hold
        · exact hni (List.mem_map.mpr ⟨e2, he2, hk⟩)
        · exact (hall e2 (Or.inr he2)) hold

/-- Under a fixed arity the only error the entry loop raises is the
duplicate-value error. -/
theorem checkPivotEntriesLoop_error (n : Nat) :
    ∀ (entries : List PivotColumnEntry) (seen : List Value) (e2 : Err),
    (∀ e ∈ entries, e.values.length = n) →
    checkPivotEntriesLoop n seen entries = .error e2 →
    ∃ v, e2 = .binderDuplicateValue v := by
  intro entries
  induction entries with
  | nil => intro seen e2 _ h; simp [checkPivotEntriesLoop] at h
  | cons e es ih =>
    intro seen e2 harity h
    rw [checkPivotEntriesLoop] at h
    by_cases hseen : dedupKey e ∈ seen
    · rw [if_pos hseen] at h
      injection h with h1
      exact ⟨dedupKey e, h1.symm⟩
    · rw [if_neg hseen, if_neg (by simp [harity e (by simp)])] at h
      exact ih (dedupKey e :: seen) e2 (fun x hx => harity x (by simp [hx])) h

/-- C5. Within one pivot column's IN-list, assuming every entry carries the
declared arity, the check of BindPivot accepts exactly when no two entries
have identical value tuples - so two identical tuples are rejected, with
the duplicate-value error being the only possible rejection, and tuples
differing in any position are all accepted. -/
theorem c5_in_list_duplicates (col : PivotColumn)
    (harity : ∀ e ∈ col.entries, e.values.length = col.pivotExpressions.length) :
    (checkPivotColumnEntries col = .ok ()
      ↔ (col.entries.map (fun e => e.values)).Nodup)
    ∧ (∀ e2, checkPivotColumnEntries col = .error e2 →
        ∃ v, e2 = .binderDuplicateValue v) := by
  constructor
  · rw [checkPivotColumnEntries,
        checkPivotEntriesLoop_ok_iff col.pivotExpressions.length col.entries [] harity,
        keysNodup_iff_valuesNodup col.pivotExpressions.length col.entries harity]
    simp
  · intro e2 h
    exact checkPivotEntriesLoop_error col.pivotExpressions.length col.entries [] e2 harity h

/-- Witness for C5: identical tuples are not accepted, differing tuples
are. -/
theorem c5_in_list_duplicates_witness :
    checkPivotColumnEntries c5DupCol ≠ .ok ()
    ∧ checkPivotColumnEntries c5OkCol = .ok () := by
  constructor
  · intro h
    have := (c5_in_list_duplicates c5DupCol (by decide)).1.mp h
    revert this
    decide
  · exact (c5_in_list_duplicates c5OkCol (by decide)).1.mpr (by decide)

/-- The monadic map succeeds exactly when the mapped function succeeds on
every element. -/
theorem exceptMapM_ok_exists (f : α → Except Err β) :
    ∀ l, (∃ r, exceptMapM f l = .ok r) ↔ ∀ a ∈ l, ∃ b, f a = .ok b := by
  intro l
  induction l with
  | nil => simp [exceptMapM]
  | cons a as ih =>
    rw [exceptMapM]
    cases hf : f a with
    | error e =>
      simp only [except_bind_error]
      constructor
      · rintro ⟨r, h⟩; exact absurd h (by simp)
      · intro hall
        obtain ⟨b, hb⟩ := hall a (by simp)
        rw [hf] at hb
        exact absurd hb (by simp)
    | ok b =>
      cases hr : exceptMapM f as with
      | error e =>
        simp only [except_bind_ok, except_bind_error]
        constructor
        · rintro ⟨r, h⟩; exact absurd h (by simp)
        · intro hall
          obtain ⟨r2, hr2⟩ := ih.mpr (fun x hx => hall x (List.mem_cons_of_mem a hx))
          rw [hr2] at hr
          exact absurd hr (by simp)
      | ok bs =>
        simp only [except_bind_ok, except_pure_eq]
        constructor
        · intro _ x hx
          rcases List.mem_cons.mp hx with rfl | hx2
          · exact ⟨b, hf⟩
          · exact (ih.mp ⟨bs, hr⟩) x hx2
        · intro _; exact ⟨b :: bs, rfl⟩

/-- One value row of the unpivot rewrite can only fail with the
out-of-bounds outcome. -/
theorem unpivotExprRow_error (entries : List PivotColumnEntry) (vIdx : Nat) (e : Err)
    (h : unpivotExprRow entries vIdx = .error e) : e = Err.oob := by
  obtain ⟨a, _, hf⟩ := exceptMapM_error _ entries e h
  revert hf
  cases a.values[vIdx]? with
  | none => intro hf; injection hf with h1; exact h1.symm
  | some v => intro hf; exact absurd hf (by simp)

/-- One value row of the unpivot rewrite succeeds exactly when the position
is inside every entry. -/
theorem unpivotExprRow_ok_iff (entries : List PivotColumnEntry) (vIdx : Nat) :
    (∃ r, unpivotExprRow entries vIdx = .ok r)
      ↔ ∀ e ∈ entries, vIdx < e.values.length := by
  rw [unpivotExprRow, exceptMapM_ok_exists]
  constructor
  · intro hall e he
    obtain ⟨b, hb⟩ := hall e he
    revert hb
    cases hv : e.values[vIdx]? with
    | none => intro hb; exact absurd hb (by simp)
    | some v => intro _; exact (List.getElem?_eq_some.mp hv).1
  · intro hall e he
    have hlt := hall e he
    rw [List.getElem?_eq_getElem hlt]
    exact ⟨_, rfl⟩

/-- The value-expression matrix of BindUnpivot can only fail with the
out-of-bounds outcome. -/
theorem buildUnpivotExpressions_error (entries : List PivotColumnEntry) (e : Err)
    (h : buildUnpivotExpressions entries = .error e) : e = Err.oob := by
  cases hE : entries with
  | nil => rw [hE] at h; rw [buildUnpivotExpressions] at h; injection h with h1; exact h1.symm
  | cons e0 rest =>
    rw [hE] at h
    rw [buildUnpivotExpressions] at h
    obtain ⟨v, _, hv⟩ := exceptMapM_error _ _ e h
    exact unpivotExprRow_error (e0 :: rest) v e hv

/-- The monadic map preserves the element count on success. -/
theorem exceptMapM_ok_length (f : α → Except Err β) :
    ∀ l r, exceptMapM f l = .ok r → r.length = l.length := by
  intro l
  induction l with
  | nil => intro r h; rw [exceptMapM] at h; injection h with h1; rw [← h1]; rfl
  | cons a as ih =>
    intro r h
    rw [exceptMapM] at h
    cases hf : f a with
    | error e => rw [hf] at h; exact absurd h (by simp)
    | ok b =>
      rw [hf] at h
      cases hr : exceptMapM f as with
      | error e => rw [hr] at h; exact absurd h (by simp)
      | ok bs =>
        rw [hr] at h
        simp only [except_bind_ok, except_pure_eq] at h
        injection h with h1
        rw [← h1]
        simp [ih bs hr]

/-- C10, amended. With a non-empty entry list, the value loop of
BindUnpivot reads entry.values[v_idx] for every entry at every position
below the first entry's arity: it goes out of bounds exactly when some
entry has fewer values than the first (an entry with more values is
silently accepted with its extra values ignored, not rejected as a user
error), and under the same-arity precondition every access is in bounds and
one expression row per position of the first entry is built. -/
theorem c10_unpivot_arity (entries : List PivotColumnEntry)
    (e0 : PivotColumnEntry) (rest : List PivotColumnEntry)
    (hE : entries = e0 :: rest) :
    (buildUnpivotExpressions entries = .error Err.oob
      ↔ ∃ e ∈ entries, e.values.length < e0.values.length)
    ∧ ((∀ e ∈ entries, e.values.length = e0.values.length) →
        ∃ rows, buildUnpivotExpressions entries = .ok rows
          ∧ rows.length = e0.values.length) := by
  subst hE
  have hbound : (∃ r, buildUnpivotExpressions (e0 :: rest) = .ok r)
      ↔ ∀ e ∈ e0 :: rest, e0.values.length ≤ e.values.length := by
    rw [buildUnpivotExpressions, exceptMapM_ok_exists]
    constructor
    · intro hall e he
      by_contra hlt
      push_neg at hlt
      have hv : e.values.length ∈ List.range e0.values.length := List.mem_range.mpr hlt
      obtain ⟨b, hb⟩ := hall _ hv
      have := (unpivotExprRow_ok_iff (e0 :: rest) e.values.length).mp ⟨b, hb⟩ e he
      omega
    · intro hall v hv
      apply (unpivotExprRow_ok_iff (e0 :: rest) v).mpr
      intro e he
      have h1 := hall e he
      have h2 := List.mem_range.mp hv
      omega
  constructor
  · constructor
    · intro herr
      by_contra hno
      push_neg at hno
      obtain ⟨r, hr⟩ := hbound.mpr hno
      rw [hr] at herr
      exact absurd herr (by simp)
    · intro hex
      cases hres : buildUnpivotExpressions (e0 :: rest) with
      | ok r =>
        obtain ⟨e, he, hlt⟩ := hex
        have := hbound.mp ⟨r, hres⟩ e he
        omega
      | error e2 =>
        have he2 := buildUnpivotExpressions_error (e0 :: rest) e2 hres
        rw [he2]
  · intro hsame
    obtain ⟨r, hr⟩ := hbound.mpr (fun e he => le_of_eq (hsame e he).symm)
    refine ⟨r, hr, ?_⟩
    rw [buildUnpivotExpressions] at hr
    exact (exceptMapM_ok_length _ _ _ hr).trans (List.length_range _)

/-- C10 counterexample: a declaration whose entries have differing arities
is neither rejected as a user error nor driven out of bounds - BindUnpivot
succeeds, ignoring the extra value of the longer entry. -/
theorem c10_counterexample :
    unpivotBindOk (bindUnpivot (fun _ => []) c10Ref c10Cols none) = true
    ∧ ((c10Ref.pivots.headD {}).entries.map (fun e => e.values.length)) = [1, 2] := by
  exact ⟨by rfl, by rfl⟩

/-- Witness for C10: the amended theorem applied to concrete entry lists,
one with a shorter second entry (out of bounds) and one with equal arities
(in bounds, one row per position). -/
theorem c10_unpivot_arity_witness :
    buildUnpivotExpressions [{ values := [.str "a", .str "b"] }, { values := [.str "c"] }]
      = .error Err.oob
    ∧ ∃ rows, buildUnpivotExpressions
        [{ values := [.str "a", .str "b"] }, { values := [.str "c", .str "d"] }]
        = .ok rows ∧ rows.length = 2 := by
  constructor
  · exact (c10_unpivot_arity _ _ _ rfl).1.mpr
      ⟨{ values := [.str "c"] }, by simp, by decide⟩
  · exact (c10_unpivot_arity _ _ _ rfl).2 (by decide)

/-- Success-shape inversion for BindUnpivot: a successful run determines
every intermediate result, the built select node (whose WHERE clause is
empty), and the returned filter - the input filter itself under
null-inclusion, else the input filter conjoined with one IS NOT NULL
predicate per value column. -/
theorem bindUnpivot_ok_shape (expand : PExpr → List PExpr) (ref : PivotRef)
    (cols : List PExpr) (w0 : Option PExpr) (node : SelectNode) (wOut : Option PExpr)
    (h : bindUnpivot expand ref cols w0 = .ok (node, wOut)) :
    ∃ u0 urest entries selCols nameMap names rows keyAlias,
      ref.pivots = u0 :: urest
      ∧ expandStarEntries expand u0.entries = .ok entries
      ∧ unpivotPartition (unpivotHandled entries) [] cols = .ok (selCols, [], nameMap)
      ∧ exceptMapM (unpivotEntryName nameMap) entries = .ok names
      ∧ buildUnpivotExpressions entries = .ok rows
      ∧ u0.unpivotColNames[0]? = some keyAlias
      ∧ ref.unpivotNames.length = rows.length
      ∧ node = SelectNode.mk
          (selCols ++ ([unnestNameExpr names keyAlias]
            ++ List.zipWith unnestValueExpr rows (unpivotValueAliases ref rows.length)))
          ref.source none []
      ∧ wOut = (if ref.includeNulls then w0
                else (unpivotValueAliases ref rows.length).foldl addNotNullFilter w0) := by
  rw [bindUnpivot] at h
  cases hp : ref.pivots with
  | nil => rw [hp] at h; exact absurd h (by simp)
  | cons u0 urest =>
    rw [hp] at h
    simp only at h
    cases hx : expandStarEntries expand u0.entries with
    | error e => rw [hx] at h; exact absurd h (by simp)
    | ok entries =>
      rw [hx] at h
      simp only [except_bind_ok] at h
      cases hpart : unpivotPartition (unpivotHandled entries) [] cols with
      | error e => rw [hpart] at h; exact absurd h (by simp)
      | ok trip =>
        rw [hpart] at h
        obtain ⟨selCols, remaining, nameMap⟩ := trip
        simp only [except_bind_ok] at h
        by_cases hrem : remaining ≠ []
        · rw [if_pos hrem] at h; exact absurd h (by simp)
        · rw [if_neg hrem] at h
          push_neg at hrem
          subst hrem
          cases hnames : exceptMapM (unpivotEntryName nameMap) entries with
          | error e => rw [hnames] at h; exact absurd h (by simp)
          | ok names =>
            rw [hnames] at h
            simp only [except_bind_ok] at h
            cases hrows : buildUnpivotExpressions entries with
            | error e => rw [hrows] at h; exact absurd h (by simp)
            | ok rows =>
              rw [hrows] at h
              simp only [except_bind_ok] at h
              cases hkey : u0.unpivotColNames[0]? with
              | none => rw [hkey] at h; exact absurd h (by simp)
              | some keyAlias =>
                rw [hkey] at h
                simp only [except_bind_ok] at h
                by_cases hcount : ref.unpivotNames.length ≠ rows.length
                · rw [if_pos hcount] at h; exact absurd h (by simp)
                · rw [if_neg hcount] at h
                  push_neg at hcount
                  injection h with h1
                  injection h1 with hnode hwhere
                  refine ⟨u0, urest, entries, selCols, nameMap, names, rows, keyAlias,
                    rfl, hx, hpart, hnames, hrows, hkey, hcount, ?_, ?_⟩
                  · rw [← hnode]
                    simp [List.append_assoc]
                  · rw [← hwhere]

/-- Success-shape inversion for the orchestrator on the unpivot path: the
outcome's first-level node is exactly what BindUnpivot produced (with the
filter threaded from an initially empty WHERE clause), and the wrapper
level exists exactly when BindUnpivot returned a filter, carrying it as the
WHERE clause of a SELECT * node. -/
theorem bindPivotRefCore_unpivot_shape (ext : ExternalBinder)
    (catalog : String → Option CatalogType) (ref : PivotRef)
    (out : PivotBindOutcome)
    (hagg : ref.aggregates = [])
    (h : bindPivotRefCore ext catalog ref = .ok out) :
    ∃ node wOut,
      bindUnpivot ext.expandEntryStar ref ext.sourceColumns none = .ok (node, wOut)
      ∧ out.generated = node
      ∧ out.wrapQuery = Option.map
          (fun w => SelectNode.mk [PExpr.star ""] none (some w) []) wOut := by
  rw [bindPivotRefCore] at h
  cases hsrc : ref.source with
  | none => rw [hsrc] at h; exact absurd h (by simp)
  | some src =>
    rw [hsrc] at h
    simp only [except_bind_ok] at h
    cases hbs : ext.bindSource src with
    | error e => rw [hbs] at h; exact absurd h (by simp)
    | ok u =>
      rw [hbs] at h
      obtain rfl : u = () := rfl
      simp only [except_bind_ok] at h
      rw [hagg] at h
      simp only [List.isEmpty_nil, if_true] at h
      cases hu : bindUnpivot ext.expandEntryStar ref ext.sourceColumns none with
      | error e => rw [hu] at h; exact absurd h (by simp)
      | ok pr =>
        rw [hu] at h
        obtain ⟨node, wOut⟩ := pr
        simp only [except_bind_ok] at h
        cases hb : ext.bindNode node with
        | error e => rw [hb] at h; exact absurd h (by simp)
        | ok bound =>
          rw [hb] at h
          simp only [except_bind_ok] at h
          cases wOut with
          | none =>
            simp only at h
            injection h with h1
            exact ⟨node, none, rfl, by rw [← h1], by rw [← h1]; rfl⟩
          | some w =>
            simp only at h
            cases hb2 : ext.bindWrappedSelect (SelectNode.mk [PExpr.star ""] none (some w) []) bound with
            | error e => rw [hb2] at h; exact absurd h (by simp)
            | ok bound2 =>
              rw [hb2] at h
              simp only [except_bind_ok] at h
              injection h with h1
              exact ⟨node, some w, rfl, by rw [← h1], by rw [← h1]; rfl⟩

/-- C7. On the unpivot path the generated first-level select node never
carries a WHERE predicate, and its select list ends with exactly one value
unnest per declared value name; with null-exclusion enabled the IS NOT NULL
predicates - built by folding over the very alias list of those value
columns, so exactly one predicate per unnested value column, conjoined left
to right onto the caller-supplied filter - appear only as the WHERE clause
of the single additional SELECT * wrapper level that Bind adds around the
bound subquery; with null-exclusion disabled the filter parameter passes
through untouched and no wrapper level is produced. -/
theorem c7_unpivot_where_placement (ext : ExternalBinder)
    (catalog : String → Option CatalogType) (ref : PivotRef)
    (out : PivotBindOutcome)
    (hagg : ref.aggregates = [])
    (hok : bindPivotRefCore ext catalog ref = .ok out) :
    out.generated.whereClause = none
    ∧ (∃ selCols names keyAlias rows,
        out.generated.selectList = selCols ++ ([unnestNameExpr names keyAlias]
          ++ List.zipWith unnestValueExpr rows
              (unpivotValueAliases ref ref.unpivotNames.length))
        ∧ rows.length = ref.unpivotNames.length)
    ∧ (ref.includeNulls = true → out.wrapQuery = none)
    ∧ (ref.includeNulls = false →
        out.wrapQuery = Option.map
          (fun w => SelectNode.mk [PExpr.star ""] none (some w) [])
          ((unpivotValueAliases ref ref.unpivotNames.length).foldl
            addNotNullFilter none))
    ∧ (∀ w0 node2 w2,
        bindUnpivot ext.expandEntryStar ref ext.sourceColumns w0 = .ok (node2, w2) →
        node2.whereClause = none
        ∧ (ref.includeNulls = true → w2 = w0)
        ∧ (ref.includeNulls = false →
            w2 = (unpivotValueAliases ref ref.unpivotNames.length).foldl
                  addNotNullFilter w0)) := by
  obtain ⟨node, wOut, hu, hgen, hwrap⟩ :=
    bindPivotRefCore_unpivot_shape ext catalog ref out hagg hok
  obtain ⟨u0, urest, entries, selCols, nameMap, names, rows, keyAlias,
    _, _, _, _, _, _, hcount, hnode, hwhere⟩ :=
    bindUnpivot_ok_shape ext.expandEntryStar ref ext.sourceColumns none node wOut hu
  refine ⟨?_, ?_, ?_, ?_, ?_⟩
  · rw [hgen, hnode]; rfl
  · refine ⟨selCols, names, keyAlias, rows, ?_, hcount.symm⟩
    rw [hgen, hnode, hcount]
    rfl
  · intro hin
    rw [hwrap, hwhere, if_pos hin]
    rfl
  · intro hin
    rw [hwrap, hwhere, if_neg (by rw [hin]; exact Bool.false_ne_true), hcount]
  · intro w0 node2 w2 h2
    obtain ⟨u0b, urestb, entriesb, selColsb, nameMapb, namesb, rowsb, keyAliasb,
      _, _, _, _, _, _, hcountb, hnodeb, hwhereb⟩ :=
      bindUnpivot_ok_shape ext.expandEntryStar ref ext.sourceColumns w0 node2 w2 h2
    refine ⟨by rw [hnodeb]; rfl, ?_, ?_⟩
    · intro hin; rw [hwhereb, if_pos hin]
    · intro hin
      rw [hwhereb, if_neg (by rw [hin]; exact Bool.false_ne_true), hcountb]

/-- Witness for C7: on a concrete null-excluding unpivot declaration the
first level has no WHERE clause and the wrapper carries the folded IS NOT
NULL filter over the value-column aliases; with null inclusion enabled no
wrapper is built. -/
theorem c7_unpivot_where_placement_witness :
    c7Out.generated.whereClause = none
    ∧ c7OutIncl.wrapQuery = none
    ∧ c7Out.wrapQuery = Option.map
        (fun w => SelectNode.mk [PExpr.star ""] none (some w) [])
        ((unpivotValueAliases c8OkRef c8OkRef.unpivotNames.length).foldl
          addNotNullFilter none) := by
  refine ⟨?_, ?_, ?_⟩
  · exact (c7_unpivot_where_placement c8Ext (fun _ => none) c8OkRef c7Out rfl (by rfl)).1
  · exact (c7_unpivot_where_placement c8Ext (fun _ => none) c7InclRef c7OutIncl rfl
      (by rfl)).2.2.1 rfl
  · exact (c7_unpivot_where_placement c8Ext (fun _ => none) c8OkRef c7Out rfl
      (by rfl)).2.2.2.1 rfl

/-- Splitting a counter range. -/
theorem range'_add_append (s m n : Nat) :
    List.range' s (m + n) = List.range' s m ++ List.range' (s + m) n := by
  have h := List.range'_append s m n 1
  rw [Nat.one_mul] at h
  rw [Nat.add_comm m n, ← h]

/-- Counters starting at one, as a shifted range. -/
theorem map_range_succ_eq (n : Nat) (f : Nat → String) :
    (List.range n).map (fun i => f (i + 1)) = (List.range' 1 n).map f := by
  rw [List.range'_eq_map_range, List.map_map]
  apply List.map_congr_left
  intro i _
  simp [Nat.add_comm]

/-- Characterization of the aggregate-alias loop: one synthesized internal
name per aggregate, counters consecutive from the start value plus one; the
recorded display names are the previous aliases. -/
theorem assignAggregateAliases_spec (as : List PExpr) : ∀ c,
    (assignAggregateAliases c as).2.2
        = (List.range' (c+1) as.length).map (synthName "aggregate")
    ∧ (assignAggregateAliases c as).2.1 = as.map PExpr.aliasOf
    ∧ (assignAggregateAliases c as).1.length = as.length := by
  induction as with
  | nil => intro c; simp [assignAggregateAliases]
  | cons a as ih =>
    intro c
    obtain ⟨h1, h2, h3⟩ := ih (c+1)
    cases hrec : assignAggregateAliases (c+1) as with
    | mk sel rest =>
      obtain ⟨names, ins⟩ := rest
      rw [hrec] at h1 h2 h3
      simp only at h1 h2 h3
      simp only [assignAggregateAliases, hrec]
      refine ⟨?_, ?_, ?_⟩
      · rw [List.length_cons, List.range'_succ, List.map_cons, h1]
      · rw [List.map_cons, h2]
      · simp [h3]

/-- Characterization of the group-alias loop: the generated names are the
synthesized group names with consecutive counters, one per expression
without alias; both recorded name lists have one entry per expression. -/
theorem assignGroupAliases_spec (es : List PExpr) : ∀ c,
    (assignGroupAliases c es).2.2.2
        = (List.range' (c+1) (countEmptyAliases es)).map (synthName "group")
    ∧ (assignGroupAliases c es).2.2.1.length = es.length
    ∧ (assignGroupAliases c es).2.1.length = es.length
    ∧ (assignGroupAliases c es).1.length = es.length := by
  induction es with
  | nil => intro c; simp [assignGroupAliases, countEmptyAliases]
  | cons e es ih =>
    intro c
    by_cases he : e.aliasOf = ""
    · obtain ⟨h1, h2, h3, h4⟩ := ih (c+1)
      cases hrec : assignGroupAliases (c+1) es with
      | mk sel rest =>
        obtain ⟨gn, rest2⟩ := rest
        obtain ⟨ign, led⟩ := rest2
        rw [hrec] at h1 h2 h3 h4
        simp only at h1 h2 h3 h4
        simp only [assignGroupAliases, he, if_true, hrec]
        have hcount : countEmptyAliases (e :: es) = countEmptyAliases es + 1 := by
          simp [countEmptyAliases, List.countP_cons, he]
        refine ⟨?_, by simp [h2], by simp [h3], by simp [h4]⟩
        rw [hcount, List.range'_succ, List.map_cons, h1]
    · obtain ⟨h1, h2, h3, h4⟩ := ih c
      cases hrec : assignGroupAliases c es with
      | mk sel rest =>
        obtain ⟨gn, rest2⟩ := rest
        obtain ⟨ign, led⟩ := rest2
        rw [hrec] at h1 h2 h3 h4
        simp only at h1 h2 h3 h4
        simp only [assignGroupAliases, he, if_false, hrec]
        have hcount : countEmptyAliases (e :: es) = countEmptyAliases es := by
          simp [countEmptyAliases, List.countP_cons, he]
        refine ⟨?_, by simp [h2], by simp [h3], by simp [h4]⟩
        rw [hcount, h1]

/-- Characterization of the pivot-expression alias loop over one column:
consecutive synthesized names for the alias-free expressions, the final
counter advanced by their number, and one replaced and one selected
expression per input expression. -/
theorem assignPivotAliasesExprs_spec (es : List PExpr) : ∀ c,
    (assignPivotAliasesExprs c es).2.2.2
        = (List.range' (c+1) (countEmptyAliases es)).map (synthName "ref")
    ∧ (assignPivotAliasesExprs c es).1 = c + countEmptyAliases es
    ∧ (assignPivotAliasesExprs c es).2.1.length = es.length
    ∧ (assignPivotAliasesExprs c es).2.2.1.length = es.length := by
  induction es with
  | nil => intro c; simp [assignPivotAliasesExprs, countEmptyAliases]
  | cons e es ih =>
    intro c
    by_cases he : e.aliasOf = ""
    · obtain ⟨h1, h2, h3, h4⟩ := ih (c+1)
      cases hrec : assignPivotAliasesExprs (c+1) es with
      | mk c2 rest =>
        obtain ⟨es2, rest2⟩ := rest
        obtain ⟨sel, led⟩ := rest2
        rw [hrec] at h1 h2 h3 h4
        simp only at h1 h2 h3 h4
        simp only [assignPivotAliasesExprs, he, if_true, hrec]
        have hcount : countEmptyAliases (e :: es) = countEmptyAliases es + 1 := by
          simp [countEmptyAliases, List.countP_cons, he]
        refine ⟨?_, ?_, by simp [h3], by simp [h4]⟩
        · rw [hcount, List.range'_succ, List.map_cons, h1]
        · rw [hcount, h2]; omega
    · obtain ⟨h1, h2, h3, h4⟩ := ih c
      cases hrec : assignPivotAliasesExprs c es with
      | mk c2 rest =>
        obtain ⟨es2, rest2⟩ := rest
        obtain ⟨sel, led⟩ := rest2
        rw [hrec] at h1 h2 h3 h4
        simp only at h1 h2 h3 h4
        simp only [assignPivotAliasesExprs, he, if_false, hrec]
        have hcount : countEmptyAliases (e :: es) = countEmptyAliases es := by
          simp [countEmptyAliases, List.countP_cons, he]
        refine ⟨?_, ?_, by simp [h3], by simp [h4]⟩
        · rw [hcount, h1]
        · rw [hcount, h2]

/-- Characterization of the pivot-alias loop over all columns. -/
theorem assignPivotAliasesCols_spec (cols : List PivotColumn) : ∀ c,
    (assignPivotAliasesCols c cols).2.2.2
        = (List.range' (c+1) (totalEmptyPivotAliases cols)).map (synthName "ref")
    ∧ (assignPivotAliasesCols c cols).1 = c + totalEmptyPivotAliases cols
    ∧ pivotExprCount (assignPivotAliasesCols c cols).2.1 = pivotExprCount cols
    ∧ (assignPivotAliasesCols c cols).2.2.1.length = pivotExprCount cols := by
  induction cols with
  | nil => intro c; simp [assignPivotAliasesCols, totalEmptyPivotAliases, pivotExprCount]
  | cons col cols ih =>
    intro c
    obtain ⟨e1, e2, e3, e4⟩ := assignPivotAliasesExprs_spec col.pivotExpressions c
    cases hex : assignPivotAliasesExprs c col.pivotExpressions with
    | mk c1 rest =>
      obtain ⟨exprs2, rest2⟩ := rest
      obtain ⟨sel1, led1⟩ := rest2
      rw [hex] at e1 e2 e3 e4
      simp only at e1 e2 e3 e4
      subst e2
      obtain ⟨h1, h2, h3, h4⟩ := ih (c + countEmptyAliases col.pivotExpressions)
      cases hrec : assignPivotAliasesCols (c + countEmptyAliases col.pivotExpressions) cols with
      | mk c2 rest =>
        obtain ⟨cols2, rest2⟩ := rest
        obtain ⟨sel2, led2⟩ := rest2
        rw [hrec] at h1 h2 h3 h4
        simp only at h1 h2 h3 h4
        simp only [assignPivotAliasesCols, hex, hrec]
        have htot : totalEmptyPivotAliases (col :: cols)
            = countEmptyAliases col.pivotExpressions + totalEmptyPivotAliases cols := by
          simp [totalEmptyPivotAliases]
        refine ⟨?_, ?_, ?_, ?_⟩
        · rw [htot, range'_add_append, List.map_append, e1, h1]
          have harith : c + 1 + countEmptyAliases col.pivotExpressions
              = c + countEmptyAliases col.pivotExpressions + 1 := by omega
          rw [harith]
        · rw [htot]; omega
        · simp only [pivotExprCount, List.flatMap_cons, List.length_append] at h3 ⊢
          rw [h3]
          simp [e3]
        · simp only [pivotExprCount, List.flatMap_cons, List.length_append] at h4 ⊢
          omega

/-- The stage-1 source-column scan succeeds when every source column is a
plain column reference. -/
theorem stageOneBaseColumns_ok (handled : List String) :
    ∀ cols : List PExpr, (∀ c ∈ cols, c.exprType = .columnRef) →
    ∃ res, stageOneBaseColumns handled cols = .ok res := by
  intro cols
  induction cols with
  | nil => intro _; exact ⟨[], rfl⟩
  | cons c cs ih =>
    intro hcols
    obtain ⟨res, hres⟩ := ih (fun x hx => hcols x (List.mem_cons_of_mem c hx))
    cases c with
    | colRef ns a =>
      rw [stageOneBaseColumns, hres]
      simp only [except_bind_ok]
      by_cases hm : ciMem handled (colNameOf ns)
      · exact ⟨res, by rw [if_pos hm]⟩
      · exact ⟨.colRef ns a :: res, by rw [if_neg hm]⟩
    | constant v al => exact absurd (hcols (PExpr.constant v al) (by simp)) (by simp [PExpr.exprType])
    | func f cs2 al => exact absurd (hcols (PExpr.func f cs2 al) (by simp)) (by simp [PExpr.exprType])
    | star al => exact absurd (hcols (PExpr.star al) (by simp)) (by simp [PExpr.exprType])
    | isNotNull c2 al => exact absurd (hcols (PExpr.isNotNull c2 al) (by simp)) (by simp [PExpr.exprType])
    | andExpr l r al => exact absurd (hcols (PExpr.andExpr l r al) (by simp)) (by simp [PExpr.exprType])
    | subqueryExpr al => exact absurd (hcols (PExpr.subqueryExpr al) (by simp)) (by simp [PExpr.exprType])
    | windowExpr f cs2 al => exact absurd (hcols (PExpr.windowExpr f cs2 al) (by simp)) (by simp [PExpr.exprType])

/-- Success and name-ledger characterization of stage 1: when the group
columns can be built (explicit row list, or all source columns plain
references), the stage succeeds; the internal aggregate names are the
consecutive synthesized aggregate names, one per aggregate; the group name
lists are parallel; the ledger is group names, then pivot-ref names, then
aggregate names, each a consecutive synthesized range; and the declaration
keeps its pivot-expression count and its aggregate list. -/
theorem pivotStageOne_spec (ref : PivotRef) (cols : List PExpr) (handled : List String)
    (hbase : ref.groups ≠ [] ∨ ∀ c ∈ cols, c.exprType = .columnRef) :
    ∃ st ref2 node, pivotStageOne ref cols handled = .ok (st, ref2, node)
      ∧ st.internalAggregateNames
          = (List.range' 1 ref.aggregates.length).map (synthName "aggregate")
      ∧ st.aggregateNames = ref.aggregates.map PExpr.aliasOf
      ∧ st.internalPivotNames = []
      ∧ st.internalMapNames = []
      ∧ st.internalGroupNames.length = st.groupNames.length
      ∧ (∃ g r, st.synthesizedLedger
            = (List.range' 1 g).map (synthName "group")
              ++ (List.range' 1 r).map (synthName "ref")
              ++ (List.range' 1 ref.aggregates.length).map (synthName "aggregate"))
      ∧ pivotExprCount ref2.pivots = pivotExprCount ref.pivots
      ∧ ref2.aggregates = ref.aggregates := by
  have hbase2 : ∃ base, (if ref.groups.isEmpty then stageOneBaseColumns handled cols
      else .ok (ref.groups.map (fun r => PExpr.colRef [r] ""))) = .ok base := by
    by_cases hg : ref.groups.isEmpty
    · rcases hbase with hne | hcols
      · rw [List.isEmpty_iff] at hg; exact absurd hg hne
      · rw [if_pos hg]; exact stageOneBaseColumns_ok handled cols hcols
    · rw [if_neg hg]; exact ⟨_, rfl⟩
  obtain ⟨base, hb⟩ := hbase2
  unfold pivotStageOne
  rw [hb]
  obtain ⟨g1, g2, g3, g4⟩ := assignGroupAliases_spec base 0
  cases hga : assignGroupAliases 0 base with
  | mk groupSel rest =>
    obtain ⟨gNames, rest2⟩ := rest
    obtain ⟨igNames, gLedger⟩ := rest2
    rw [hga] at g1 g2 g3 g4
    simp only at g1 g2 g3 g4
    obtain ⟨p1, p2, p3, p4⟩ := assignPivotAliasesCols_spec ref.pivots 0
    cases hpa : assignPivotAliasesCols 0 ref.pivots with
    | mk pcount rest =>
      obtain ⟨pivots2, rest2⟩ := rest
      obtain ⟨pivotSel, pLedger⟩ := rest2
      rw [hpa] at p1 p2 p3 p4
      simp only at p1 p2 p3 p4
      obtain ⟨a1, a2, a3⟩ := assignAggregateAliases_spec ref.aggregates 0
      cases haa : assignAggregateAliases 0 ref.aggregates with
      | mk aggrSel rest =>
        obtain ⟨aNames, iaNames⟩ := rest
        rw [haa] at a1 a2 a3
        simp only at a1 a2 a3
        simp only [hga, hpa, haa]
        refine ⟨_, _, _, rfl, ?_, ?_, rfl, rfl, ?_, ?_, ?_, rfl⟩
        · exact a1
        · exact a2
        · rw [g2, g3]
        · exact ⟨countEmptyAliases base, totalEmptyPivotAliases ref.pivots,
            by rw [g1, p1, a1]⟩
        · exact p3

/-- Stage 2 extends exactly the pivot-name ledgers: one consecutive
synthesized pivot-list name per pivot expression of the (stage-1 rewritten)
declaration. -/
theorem pivotStageTwo_spec (st : PivotBindState) (ref2 : PivotRef) (s1 : SelectNode) :
    (pivotStageTwo st ref2 s1).1 =
      { st with internalPivotNames := st.internalPivotNames
                  ++ (List.range' 1 (pivotExprCount ref2.pivots)).map (synthName "name")
                synthesizedLedger := st.synthesizedLedger
                  ++ (List.range' 1 (pivotExprCount ref2.pivots)).map (synthName "name") } := by
  unfold pivotStageTwo
  simp only
  rw [map_range_succ_eq]
  rfl

/-- Stage 3, when the pivot-name list is no longer than the aggregate-name
list, succeeds and appends one consecutive synthesized map name per pivot
name, pairing the i-th pivot-list column with the i-th aggregate-list
column. -/
theorem pivotStageThree_spec (st : PivotBindState) (s2 : SelectNode)
    (hPA : st.internalPivotNames.length ≤ st.internalAggregateNames.length) :
    pivotStageThree st s2 = .ok
      ({ st with
           internalMapNames := st.internalMapNames
             ++ (List.range' 1 st.internalPivotNames.length).map (synthName "map"),
           synthesizedLedger := st.synthesizedLedger
             ++ (List.range' 1 st.internalPivotNames.length).map (synthName "map") },
       SelectNode.mk
         (st.internalGroupNames.map (fun g => PExpr.colRef [g] g)
           ++ List.zipWith (fun nm pr => PExpr.func "map"
                [PExpr.colRef [pr.1] "", PExpr.colRef [pr.2] ""] nm)
              ((List.range' 1 st.internalPivotNames.length).map (synthName "map"))
              (st.internalPivotNames.zip st.internalAggregateNames))
         (some (.subqueryRef s2)) none []) := by
  rw [pivotStageThree, if_neg (by omega)]
  rw [map_range_succ_eq]

/-- A stage-4 element with a tuple of any size other than one raises the
FIXME internal error. -/
theorem stageFourElement_multi (maps : List String) (pv : PivotValueElement)
    (h2 : pv.values.length ≠ 1) :
    stageFourElement maps pv = .error .internalMultiplePivots := by
  rcases hpv : pv.values with _ | ⟨v, _ | ⟨w, t⟩⟩
  · simp [stageFourElement, hpv]
  · rw [hpv] at h2; simp at h2
  · simp [stageFourElement, hpv]

/-- With a single map column, the stage-4 loop over single-valued elements
produces exactly one extraction per element, keyed by the element value and
aliased by the element display name. -/
theorem exceptMapM_stageFourElement_single (m : String) :
    ∀ pvs : List PivotValueElement, (∀ pv ∈ pvs, pv.values.length = 1) →
    exceptMapM (stageFourElement [m]) pvs
      = .ok (pvs.map (fun pv => [mkMapExtract m (pv.values.headD .moved) pv.name])) := by
  intro pvs
  induction pvs with
  | nil => intro _; rfl
  | cons pv rest ih =>
    intro hvals
    obtain ⟨v, hv⟩ := List.length_eq_one.mp (hvals pv (by simp))
    rw [exceptMapM]
    have hel : stageFourElement [m] pv = .ok [mkMapExtract m v pv.name] := by
      rw [stageFourElement]
      rw [hv]
      rfl
    rw [hel, ih (fun x hx => hvals x (by simp [hx]))]
    simp only [except_bind_ok, except_pure_eq]
    simp [hv]

/-- Flattening singleton lists is mapping. -/
theorem flatten_map_singleton (f : α → β) :
    ∀ l : List α, (l.map (fun a => [f a])).flatten = l.map f := by
  intro l
  induction l with
  | nil => rfl
  | cons a as ih => simp [ih]

/-- Stage 4 with one map column and single-valued elements: the select list
is the renamed group columns followed by one extraction per element, in
element order, aliased by the element display name. -/
theorem pivotStageFour_single (st : PivotBindState) (s3 : SelectNode)
    (pvs : List PivotValueElement) (m : String)
    (hmap : st.internalMapNames = [m])
    (hlen : st.internalGroupNames.length ≤ st.groupNames.length)
    (hvals : ∀ pv ∈ pvs, pv.values.length = 1) :
    pivotStageFour st s3 pvs = .ok (SelectNode.mk
      (List.zipWith (fun ig g => PExpr.colRef [ig] g) st.internalGroupNames st.groupNames
        ++ pvs.map (fun pv => mkMapExtract m (pv.values.headD .moved) pv.name))
      (some (.subqueryRef s3)) none []) := by
  rw [pivotStageFour, if_neg (by omega)]
  rw [hmap, exceptMapM_stageFourElement_single m pvs hvals]
  simp only [except_bind_ok, except_pure_eq]
  rw [flatten_map_singleton]

/-- An accepted entry loop means every entry had the declared arity. -/
theorem checkPivotEntriesLoop_ok_arity (n : Nat) :
    ∀ (entries : List PivotColumnEntry) (seen : List Value),
    checkPivotEntriesLoop n seen entries = .ok () →
    ∀ e ∈ entries, e.values.length = n := by
  intro entries
  induction entries with
  | nil => intro seen _ e he; simp at he
  | cons e0 es ih =>
    intro seen h e he
    rw [checkPivotEntriesLoop] at h
    by_cases hseen : dedupKey e0 ∈ seen
    · rw [if_pos hseen] at h; exact absurd h (by simp)
    · rw [if_neg hseen] at h
      by_cases harx : e0.values.length ≠ n
      · rw [if_pos harx] at h; exact absurd h (by simp)
      · rw [if_neg harx] at h
        push_neg at harx
        rcases List.mem_cons.mp he with rfl | he2
        · exact harx
        · exact ih (dedupKey e0 :: seen) h e he2

/-- Validation accepts only columns whose entries all carry the declared
arity. -/
theorem validatePivotColumns_arity (catalog : String → Option CatalogType) :
    ∀ (cols : List PivotColumn) (handled : List String) (total : Nat)
      (cols2 : List PivotColumn) (handled2 : List String) (total2 : Nat),
    validatePivotColumns catalog handled total cols = .ok (cols2, handled2, total2) →
    ∀ col ∈ cols2, ∀ e ∈ col.entries, e.values.length = col.pivotExpressions.length := by
  intro cols
  induction cols with
  | nil =>
    intro handled total cols2 handled2 total2 h col hcol
    rw [validatePivotColumns] at h
    injection h with h1
    injection h1 with h2 h3
    rw [← h2] at hcol
    simp at hcol
  | cons c cs ih =>
    intro handled total cols2 handled2 total2 h col hcol
    rw [validatePivotColumns] at h
    cases hc : validatePivotColumn catalog handled c with
    | error e => rw [hc] at h; exact absurd h (by simp)
    | ok trip =>
      rw [hc] at h
      obtain ⟨c2, handledB, k⟩ := trip
      simp only [except_bind_ok] at h
      cases hrec : validatePivotColumns catalog handledB (total * k % 2 ^ 64) cs with
      | error e => rw [hrec] at h; exact absurd h (by simp)
      | ok trip2 =>
        rw [hrec] at h
        obtain ⟨cs2, handledC, totalC⟩ := trip2
        simp only [except_bind_ok, except_pure_eq] at h
        injection h with h1
        injection h1 with h2 h3
        rw [← h2] at hcol
        rcases List.mem_cons.mp hcol with rfl | hcol2
        · rw [validatePivotColumn] at hc
          cases hee : expandEnum catalog c with
          | error e => rw [hee] at hc; exact absurd hc (by simp)
          | ok cE =>
            rw [hee] at hc
            simp only [except_bind_ok] at hc
            cases hex : extractPivotList cE.pivotExpressions handled with
            | error e => rw [hex] at hc; exact absurd hc (by simp)
            | ok handledX =>
              rw [hex] at hc
              simp only [except_bind_ok] at hc
              cases hck : checkPivotColumnEntries cE with
              | error e => rw [hck] at hc; exact absurd hc (by simp)
              | ok u =>
                obtain rfl : u = () := rfl
                rw [hck] at hc
                injection hc with hc1
                injection hc1 with hc2 hc3
                rw [← hc2]
                rw [checkPivotColumnEntries] at hck
                exact checkPivotEntriesLoop_ok_arity cE.pivotExpressions.length
                  cE.entries [] hck
        · injection h3 with h4 h5
          exact ih handledB (total * k % 2 ^ 64) cs2 handledC totalC hrec col hcol2

/-- Validation accepts only declarations whose columns' entries all carry
the declared arity. -/
theorem pivotValidate_arity (catalog : String → Option CatalogType)
    (ref ref1 : PivotRef) (handled : List String) (total : Nat)
    (hv : pivotValidate catalog ref = .ok (ref1, handled, total)) :
    ∀ col ∈ ref1.pivots, ∀ e ∈ col.entries,
      e.values.length = col.pivotExpressions.length := by
  rw [pivotValidate] at hv
  cases hva : validateAggregates ref.aggregates [] with
  | error e => rw [hva] at hv; exact absurd hv (by simp)
  | ok h0 =>
    rw [hva] at hv
    simp only [except_bind_ok] at hv
    cases hvc : validatePivotColumns catalog h0 1 ref.pivots with
    | error e => rw [hvc] at hv; exact absurd hv (by simp)
    | ok trip =>
      rw [hvc] at hv
      obtain ⟨pivots2, handledB, totalB⟩ := trip
      simp only [except_bind_ok, except_pure_eq] at hv
      injection hv with h1
      injection h1 with h2 h3
      intro col hcol
      rw [← h2] at hcol
      simp only at hcol
      exact validatePivotColumns_arity catalog ref.pivots h0 1 pivots2 handledB totalB
        hvc col hcol

/-- Element tuple lengths of the enumerator: the accumulated length plus
the total pivot-expression count of the remaining levels, under the
declared-arity property. -/
theorem constructPivotsGo_values_length (ps : List PivotColumn) :
    (∀ col ∈ ps, ∀ e ∈ col.entries, e.values.length = col.pivotExpressions.length) →
    ∀ cur pv, pv ∈ constructPivotsGo ps cur →
      pv.values.length = cur.values.length + pivotExprCount ps := by
  induction ps with
  | nil =>
    intro _ cur pv hpv
    rw [constructPivotsGo] at hpv
    simp at hpv
    subst hpv
    simp [pivotExprCount]
  | cons p rest ih =>
    intro harity cur pv hpv
    rw [constructPivotsGo] at hpv
    rw [List.mem_flatMap] at hpv
    obtain ⟨e, he, hpv2⟩ := hpv
    have hrec := ih (fun col hc => harity col (by simp [hc])) (extendElement cur e) pv hpv2
    have hext : (extendElement cur e).values.length
        = cur.values.length + e.values.length := by
      simp [extendElement]
    have hlen := harity p (by simp) e he
    have hcount : pivotExprCount (p :: rest)
        = p.pivotExpressions.length + pivotExprCount rest := by
      simp [pivotExprCount]
    omega

/-- The enumerator yields at least one element when every level has at
least one entry. -/
theorem constructPivotsGo_ne_nil (ps : List PivotColumn)
    (hne : ∀ col ∈ ps, col.entries ≠ []) (cur : PivotValueElement) :
    constructPivotsGo ps cur ≠ [] := by
  intro h
  have hl := congrArg List.length h
  rw [constructPivotsGo_eq, List.length_map, listProd_length] at hl
  simp only [List.length_nil] at hl
  have : ∀ n ∈ (ps.map (fun c => c.entries)).map List.length, n ≠ 0 := by
    intro n hn
    rw [List.map_map] at hn
    obtain ⟨col, hcol, hcoln⟩ := List.mem_map.mp hn
    intro h0
    rw [← hcoln] at h0
    exact hne col hcol (List.length_eq_zero.mp h0)
  exact (List.prod_ne_zero (fun h0 => this 0 h0 rfl)) hl

/-- Pipeline helper: for a validated declaration below the ceiling, with
buildable group columns, at least one pivot column and no more pivot
expressions than aggregates, BindPivot runs the enumeration and stages one
to three deterministically; the final outcome is stage four's outcome
paired with the stage-three state, whose map names and full synthesized
ledger are the consecutive synthesized ranges. -/
theorem bindPivotCore_stages (catalog : String → Option CatalogType)
    (ref : PivotRef) (cols : List PExpr) (ref1 : PivotRef)
    (handled : List String) (total : Nat)
    (hv : pivotValidate catalog ref = .ok (ref1, handled, total))
    (hlim : total < pivotExpressionLimit)
    (hbase : ref1.groups ≠ [] ∨ ∀ c ∈ cols, c.exprType = .columnRef)
    (hpne : ref1.pivots ≠ [])
    (hPA : pivotExprCount ref1.pivots ≤ ref1.aggregates.length) :
    ∃ pvs st3 s3 g r,
      constructPivots ref1 = some pvs
      ∧ (∀ pv ∈ pvs, pv.values.length = pivotExprCount ref1.pivots)
      ∧ ((∀ col ∈ ref1.pivots, col.entries ≠ []) → pvs ≠ [])
      ∧ st3.internalMapNames = mapRange "map" (pivotExprCount ref1.pivots)
      ∧ st3.internalGroupNames.length = st3.groupNames.length
      ∧ st3.synthesizedLedger
          = mapRange "group" g ++ mapRange "ref" r
            ++ mapRange "aggregate" ref1.aggregates.length
            ++ mapRange "name" (pivotExprCount ref1.pivots)
            ++ mapRange "map" (pivotExprCount ref1.pivots)
      ∧ bindPivotCore catalog ref cols
          = (pivotStageFour st3 s3 pvs).map (fun n => (n, st3)) := by
  have harity := pivotValidate_arity catalog ref ref1 handled total hv
  obtain ⟨st1, ref2, s1, hst1, ha1, ha2, hp0, hm0, hglen, ⟨g, r, hledger⟩, hpcount, haggr⟩ :=
    pivotStageOne_spec ref1 cols handled hbase
  obtain ⟨p, ps, hpiv⟩ := List.exists_cons_of_ne_nil hpne
  have hc : constructPivots ref1 = some (constructPivotsGo ref1.pivots {}) := by
    show (match ref1.pivots with
          | [] => none
          | p :: ps => some (constructPivotsGo (p :: ps) {}))
        = some (constructPivotsGo ref1.pivots {})
    rw [hpiv]
  have hvals : ∀ pv ∈ constructPivotsGo ref1.pivots {},
      pv.values.length = pivotExprCount ref1.pivots := by
    intro pv hpv
    simpa using constructPivotsGo_values_length ref1.pivots harity {} pv hpv
  cases hst2 : pivotStageTwo st1 ref2 s1 with
  | mk st2 s2 =>
    have hst2v : st2 = { st1 with
        internalPivotNames := st1.internalPivotNames
          ++ mapRange "name" (pivotExprCount ref2.pivots),
        synthesizedLedger := st1.synthesizedLedger
          ++ mapRange "name" (pivotExprCount ref2.pivots) } := by
      have hspec := pivotStageTwo_spec st1 ref2 s1
      rw [hst2] at hspec
      exact hspec
    have hplen : st2.internalPivotNames.length = pivotExprCount ref1.pivots := by
      rw [hst2v]
      simp [hp0, mapRange, hpcount]
    have halen : st2.internalAggregateNames.length = ref1.aggregates.length := by
      rw [hst2v]
      simp [ha1]
    have hle : st2.internalPivotNames.length ≤ st2.internalAggregateNames.length := by
      rw [hplen, halen]; exact hPA
    have hst3 := pivotStageThree_spec st2 s2 hle
    have hmm : st2.internalMapNames = [] := by
      rw [hst2v]; simpa using hm0
    refine ⟨constructPivotsGo ref1.pivots {},
      { st2 with
          internalMapNames := st2.internalMapNames
            ++ (List.range' 1 st2.internalPivotNames.length).map (synthName "map"),
          synthesizedLedger := st2.synthesizedLedger
            ++ (List.range' 1 st2.internalPivotNames.length).map (synthName "map") },
      SelectNode.mk
        (st2.internalGroupNames.map (fun g2 => PExpr.colRef [g2] g2)
          ++ List.zipWith (fun nm pr => PExpr.func "map"
               [PExpr.colRef [pr.1] "", PExpr.colRef [pr.2] ""] nm)
              ((List.range' 1 st2.internalPivotNames.length).map (synthName "map"))
              (st2.internalPivotNames.zip st2.internalAggregateNames))
        (some (.subqueryRef s2)) none [],
      g, r, hc, hvals, ?_, ?_, ?_, ?_, ?_⟩
    · intro hne
      exact constructPivotsGo_ne_nil ref1.pivots hne {}
    · show st2.internalMapNames
          ++ (List.range' 1 st2.internalPivotNames.length).map (synthName "map")
        = mapRange "map" (pivotExprCount ref1.pivots)
      rw [hmm, hplen]
      simp [mapRange]
    · show st2.internalGroupNames.length = st2.groupNames.length
      rw [hst2v]
      exact hglen
    · show st2.synthesizedLedger
          ++ (List.range' 1 st2.internalPivotNames.length).map (synthName "map")
        = _
      have hled2 : st2.synthesizedLedger
          = st1.synthesizedLedger ++ mapRange "name" (pivotExprCount ref1.pivots) := by
        rw [hst2v]
        show st1.synthesizedLedger
            ++ mapRange "name" (pivotExprCount ref2.pivots) = _
        rw [hpcount]
      rw [hled2, hledger, hplen]
      rfl
    · rw [bindPivotCore, hv]
      simp only [except_bind_ok]
      rw [if_neg (by omega)]
      rw [hc]
      simp only [except_bind_ok]
      rw [hst1]
      simp only [except_bind_ok]
      rw [hst2]
      simp only
      rw [hst3]
      simp only [except_bind_ok]
      have hbindmap : ∀ (x : Except Err SelectNode) (stx : PivotBindState),
          (x >>= fun s4 => (Except.ok (s4, stx) : Except Err (SelectNode × PivotBindState)))
            = x.map (fun n => (n, stx)) := by
        intro x stx
        cases x <;> rfl
      exact hbindmap _ _

/-- C3. For a validated pivot declaration below the ceiling with buildable
group columns: when the total pivot-expression count is one (the only case
in which the enumerated elements are single-valued), BindPivot succeeds and
the stage-4 select list is the renamed group columns followed by, for every
enumerated element and the (then unique) internal map column, one
expression array_extract(map_extract(map_column, value), 1) whose alias is
that element's display name; when the count is at least two, every
enumerated element holds more than one literal value and stage 4 raises the
FIXME internal error - not a user validation error - before emitting any
extraction. -/
theorem c3_stage_four_extraction (catalog : String → Option CatalogType)
    (ref : PivotRef) (cols : List PExpr) (ref1 : PivotRef)
    (handled : List String) (total : Nat)
    (hv : pivotValidate catalog ref = .ok (ref1, handled, total))
    (hlim : total < pivotExpressionLimit)
    (hbase : ref1.groups ≠ [] ∨ ∀ c ∈ cols, c.exprType = .columnRef) :
    (pivotExprCount ref1.pivots = 1 → 1 ≤ ref1.aggregates.length →
      ∃ pvs st node, constructPivots ref1 = some pvs
        ∧ bindPivotCore catalog ref cols = .ok (node, st)
        ∧ st.internalMapNames = [synthName "map" 1]
        ∧ node.selectList
            = List.zipWith (fun ig g2 => PExpr.colRef [ig] g2)
                st.internalGroupNames st.groupNames
              ++ pvs.map (fun pv =>
                  mkMapExtract (synthName "map" 1) (pv.values.headD .moved) pv.name))
    ∧ (2 ≤ pivotExprCount ref1.pivots →
       pivotExprCount ref1.pivots ≤ ref1.aggregates.length →
       (∀ col ∈ ref1.pivots, col.entries ≠ []) →
       bindPivotCore catalog ref cols = .error .internalMultiplePivots) := by
  constructor
  · intro hP hA
    have hpne : ref1.pivots ≠ [] := by
      intro h
      rw [h] at hP
      simp [pivotExprCount] at hP
    obtain ⟨pvs, st3, s3, g, r, hc, hvals, hne, hmap, hglen, hled, hcore⟩ :=
      bindPivotCore_stages catalog ref cols ref1 handled total hv hlim hbase hpne
        (by rw [hP]; exact hA)
    have hvals1 : ∀ pv ∈ pvs, pv.values.length = 1 := by
      intro pv hpv
      rw [hvals pv hpv, hP]
    have hmap1 : st3.internalMapNames = [synthName "map" 1] := by
      rw [hmap, hP]
      rfl
    have hs4 := pivotStageFour_single st3 s3 pvs (synthName "map" 1) hmap1
      (le_of_eq hglen) hvals1
    refine ⟨pvs, st3, SelectNode.mk
        (List.zipWith (fun ig g2 => PExpr.colRef [ig] g2)
            st3.internalGroupNames st3.groupNames
          ++ pvs.map (fun pv =>
              mkMapExtract (synthName "map" 1) (pv.values.headD .moved) pv.name))
        (some (.subqueryRef s3)) none [], hc, ?_, hmap1, rfl⟩
    rw [hcore, hs4]
    rfl
  · intro hP2 hPA hentne
    have hpne : ref1.pivots ≠ [] := by
      intro h
      rw [h] at hP2
      simp [pivotExprCount] at hP2
    obtain ⟨pvs, st3, s3, g, r, hc, hvals, hne, hmap, hglen, hled, hcore⟩ :=
      bindPivotCore_stages catalog ref cols ref1 handled total hv hlim hbase hpne hPA
    obtain ⟨pv0, rest, hpvs⟩ := List.exists_cons_of_ne_nil (hne hentne)
    have herr : pivotStageFour st3 s3 pvs = .error .internalMultiplePivots := by
      rw [pivotStageFour, if_neg (by omega)]
      rw [hpvs, exceptMapM,
          stageFourElement_multi st3.internalMapNames pv0
            (by rw [hvals pv0 (by rw [hpvs]; simp)]; omega)]
      rfl
    rw [hcore, herr]
    rfl

/-- Witness for C3: on a concrete single-expression declaration BindPivot
succeeds with the extraction select list, and on a concrete two-expression
declaration it raises the FIXME internal error. -/
theorem c3_stage_four_extraction_witness :
    (∃ pvs st node, constructPivots c3Ref = some pvs
      ∧ bindPivotCore (fun _ => none) c3Ref c3Cols = .ok (node, st)
      ∧ st.internalMapNames = [synthName "map" 1]
      ∧ node.selectList
          = List.zipWith (fun ig g2 => PExpr.colRef [ig] g2)
              st.internalGroupNames st.groupNames
            ++ pvs.map (fun pv =>
                mkMapExtract (synthName "map" 1) (pv.values.headD .moved) pv.name))
    ∧ bindPivotCore (fun _ => none) c3MultiRef []
        = .error .internalMultiplePivots := by
  constructor
  · exact (c3_stage_four_extraction (fun _ => none) c3Ref c3Cols c3Ref
      ["amount", "quarter"] 2 (by rfl) (by decide)
      (Or.inr (by decide))).1 (by decide) (by decide)
  · exact (c3_stage_four_extraction (fun _ => none) c3MultiRef [] c3MultiRef
      ["v", "a", "b"] 1 (by rfl) (by decide)
      (Or.inr (by decide))).2 (by decide) (by decide)
      (by intro col hcol
          simp only [c3MultiRef, List.mem_singleton] at hcol
          subst hcol
          exact List.cons_ne_nil _ _)

/-- C4. For every declaration accepted by validation with buildable group
columns, stage 3 emits one key-to-value map column per pivot expression of
the declaration - not one per original aggregate: the map-name list gains
exactly the pivot-expression count of entries, each map pairing the i-th
internal pivot-list column with the i-th internal aggregate column; when
the declaration has more pivot expressions than aggregates, stage 3 reads
past the end of the aggregate-name vector instead of producing maps. -/
theorem c4_stage_three_one_map_per_pivot_expression
    (catalog : String → Option CatalogType) (ref : PivotRef) (cols : List PExpr)
    (ref1 : PivotRef) (handled : List String) (total : Nat)
    (hv : pivotValidate catalog ref = .ok (ref1, handled, total))
    (hbase : ref1.groups ≠ [] ∨ ∀ c ∈ cols, c.exprType = .columnRef) :
    ∃ st1 ref2 s1, pivotStageOne ref1 cols handled = .ok (st1, ref2, s1)
      ∧ ∀ st2 s2, pivotStageTwo st1 ref2 s1 = (st2, s2) →
        st2.internalPivotNames.length = pivotExprCount ref1.pivots
        ∧ st2.internalAggregateNames.length = ref1.aggregates.length
        ∧ (pivotExprCount ref1.pivots ≤ ref1.aggregates.length →
            ∃ st3 s3, pivotStageThree st2 s2 = .ok (st3, s3)
              ∧ st3.internalMapNames = mapRange "map" (pivotExprCount ref1.pivots)
              ∧ s3.selectList
                  = st2.internalGroupNames.map (fun g2 => PExpr.colRef [g2] g2)
                    ++ List.zipWith (fun nm pr => PExpr.func "map"
                          [PExpr.colRef [pr.1] "", PExpr.colRef [pr.2] ""] nm)
                        st3.internalMapNames
                        (st2.internalPivotNames.zip st2.internalAggregateNames))
        ∧ (ref1.aggregates.length < pivotExprCount ref1.pivots →
            pivotStageThree st2 s2 = .error .oob) := by
  obtain ⟨st1, ref2, s1, h1, haggN, haggA, hpivN, hmapN, hglen, hled, hcnt, haggs⟩ :=
    pivotStageOne_spec ref1 cols handled hbase
  refine ⟨st1, ref2, s1, h1, ?_⟩
  intro st2 s2 h2
  have hst2 : st2 = { st1 with
      internalPivotNames := st1.internalPivotNames
        ++ (List.range' 1 (pivotExprCount ref2.pivots)).map (synthName "name"),
      synthesizedLedger := st1.synthesizedLedger
        ++ (List.range' 1 (pivotExprCount ref2.pivots)).map (synthName "name") } := by
    have h := pivotStageTwo_spec st1 ref2 s1
    rw [h2] at h
    exact h
  subst hst2
  have hplen : (st1.internalPivotNames
      ++ (List.range' 1 (pivotExprCount ref2.pivots)).map (synthName "name")).length
      = pivotExprCount ref1.pivots := by
    rw [hpivN, hcnt]
    simp
  have halen : st1.internalAggregateNames.length = ref1.aggregates.length := by
    rw [haggN]
    simp
  refine ⟨hplen, halen, ?_, ?_⟩
  · intro hPA
    have hle : (st1.internalPivotNames
        ++ (List.range' 1 (pivotExprCount ref2.pivots)).map (synthName "name")).length
        ≤ st1.internalAggregateNames.length := by
      rw [hplen, halen]
      exact hPA
    refine ⟨_, _, pivotStageThree_spec _ s2 hle, ?_, ?_⟩
    · dsimp only
      rw [hmapN, hplen, List.nil_append]
      rfl
    · dsimp only
      rw [hmapN, List.nil_append]
      rfl
  · intro hlt
    rw [pivotStageThree, if_pos (by dsimp only; rw [halen, hplen]; exact hlt)]

/-- C4 counterexample: the concrete declaration with two aggregates and one
pivot expression is accepted by the whole pipeline yet yields exactly one
map column, not one per original aggregate. -/
theorem c4_counterexample :
    c4MapCount (bindPivotCore (fun _ => none) c4Ref []) = 1
    ∧ c4Ref.aggregates.length = 2 := ⟨by rfl, by rfl⟩

/-- Witness for C4: the amended theorem applied to the concrete declaration
with one pivot expression and two aggregates. -/
theorem c4_stage_three_one_map_per_pivot_expression_witness :
    ∃ st1 ref2 s1, pivotStageOne c4Ref [] ["v", "p"] = .ok (st1, ref2, s1)
      ∧ ∀ st2 s2, pivotStageTwo st1 ref2 s1 = (st2, s2) →
        st2.internalPivotNames.length = pivotExprCount c4Ref.pivots
        ∧ st2.internalAggregateNames.length = c4Ref.aggregates.length
        ∧ (pivotExprCount c4Ref.pivots ≤ c4Ref.aggregates.length →
            ∃ st3 s3, pivotStageThree st2 s2 = .ok (st3, s3)
              ∧ st3.internalMapNames = mapRange "map" (pivotExprCount c4Ref.pivots)
              ∧ s3.selectList
                  = st2.internalGroupNames.map (fun g2 => PExpr.colRef [g2] g2)
                    ++ List.zipWith (fun nm pr => PExpr.func "map"
                          [PExpr.colRef [pr.1] "", PExpr.colRef [pr.2] ""] nm)
                        st3.internalMapNames
                        (st2.internalPivotNames.zip st2.internalAggregateNames))
        ∧ (c4Ref.aggregates.length < pivotExprCount c4Ref.pivots →
            pivotStageThree st2 s2 = .error .oob) :=
  c4_stage_three_one_map_per_pivot_expression (fun _ => none) c4Ref [] c4Ref
    ["v", "p"] 1 (by rfl) (Or.inr (by intro c hc; cases hc))

/-- Each synthesized-name category list is duplicate-free: the counter is
monotone and the decimal suffix determines it. -/
theorem mapRange_nodup (cat : String) (k : Nat) : (mapRange cat k).Nodup :=
  (@List.nodup_range' 1 k 1 (by omega)).map (synthName_inj cat)

/-- Two category lists whose category strings start with different letters
share no name. -/
theorem mapRange_disjoint {c1 c2 : String} {a b : Char} {s1 s2 : List Char}
    (h1 : c1.data = a :: s1) (h2 : c2.data = b :: s2) (hab : a ≠ b)
    (m n : Nat) : List.Disjoint (mapRange c1 m) (mapRange c2 n) := by
  intro x hx hy
  simp only [mapRange, List.mem_map] at hx hy
  obtain ⟨i, hi, rfl⟩ := hx
  obtain ⟨j, hj, hne⟩ := hy
  exact synthName_ne_of_head h2 h1 hab.symm j i hne

/-- The full ledger of one rewrite, five category blocks in stage order, is
duplicate-free. -/
theorem ledger_nodup (g r a p q : Nat) :
    (mapRange "group" g ++ mapRange "ref" r ++ mapRange "aggregate" a
      ++ mapRange "name" p ++ mapRange "map" q).Nodup := by
  have hg : ("group" : String).data = 'g' :: ['r', 'o', 'u', 'p'] := rfl
  have hr : ("ref" : String).data = 'r' :: ['e', 'f'] := rfl
  have ha : ("aggregate" : String).data = 'a' :: ['g', 'g', 'r', 'e', 'g', 'a', 't', 'e'] := rfl
  have hn : ("name" : String).data = 'n' :: ['a', 'm', 'e'] := rfl
  have hm : ("map" : String).data = 'm' :: ['a', 'p'] := rfl
  simp only [List.nodup_append, List.disjoint_append_left]
  repeat' apply And.intro
  all_goals first
    | exact mapRange_nodup _ _
    | exact mapRange_disjoint hg hr (by decide) _ _
    | exact mapRange_disjoint hg ha (by decide) _ _
    | exact mapRange_disjoint hg hn (by decide) _ _
    | exact mapRange_disjoint hg hm (by decide) _ _
    | exact mapRange_disjoint hr ha (by decide) _ _
    | exact mapRange_disjoint hr hn (by decide) _ _
    | exact mapRange_disjoint hr hm (by decide) _ _
    | exact mapRange_disjoint ha hn (by decide) _ _
    | exact mapRange_disjoint ha hm (by decide) _ _
    | exact mapRange_disjoint hn hm (by decide) _ _

/-- Every ledger entry has the reserved synthesized form with a positive
counter. -/
theorem ledger_reserved (g r a p q : Nat) :
    ∀ n ∈ mapRange "group" g ++ mapRange "ref" r ++ mapRange "aggregate" a
      ++ mapRange "name" p ++ mapRange "map" q, reservedSynthName n := by
  intro n hn
  simp only [List.mem_append, mapRange, List.mem_map] at hn
  rcases hn with ((((⟨i, hi, rfl⟩ | ⟨i, hi, rfl⟩) | ⟨i, hi, rfl⟩) | ⟨i, hi, rfl⟩) | ⟨i, hi, rfl⟩)
  · exact ⟨i, (List.mem_range'_1.mp hi).1, Or.inl rfl⟩
  · exact ⟨i, (List.mem_range'_1.mp hi).1, Or.inr (Or.inl rfl)⟩
  · exact ⟨i, (List.mem_range'_1.mp hi).1, Or.inr (Or.inr (Or.inl rfl))⟩
  · exact ⟨i, (List.mem_range'_1.mp hi).1, Or.inr (Or.inr (Or.inr (Or.inl rfl)))⟩
  · exact ⟨i, (List.mem_range'_1.mp hi).1, Or.inr (Or.inr (Or.inr (Or.inr rfl)))⟩

/-- C6. Within one successful pivot rewrite, the synthesized internal names
of all five categories - group aliases, pivot-expression aliases, aggregate
aliases, pivot-list names and map names - are pairwise distinct, and every
one of them has the reserved form of the fixed prefix, a category word and
a positive decimal counter; distinctness from user identifiers does not
hold in general, since a user may spell an identifier of the reserved form
(the counterexample exhibits the collision). -/
theorem c6_synthesized_names_distinct
    (catalog : String → Option CatalogType) (ref : PivotRef) (cols : List PExpr)
    (ref1 : PivotRef) (handled : List String) (total : Nat)
    (node : SelectNode) (st : PivotBindState)
    (hv : pivotValidate catalog ref = .ok (ref1, handled, total))
    (hlim : total < pivotExpressionLimit)
    (hbase : ref1.groups ≠ [] ∨ ∀ c ∈ cols, c.exprType = .columnRef)
    (hpne : ref1.pivots ≠ [])
    (hPA : pivotExprCount ref1.pivots ≤ ref1.aggregates.length)
    (hok : bindPivotCore catalog ref cols = .ok (node, st)) :
    st.synthesizedLedger.Nodup ∧ ∀ n ∈ st.synthesizedLedger, reservedSynthName n := by
  obtain ⟨pvs, st3, s3, g, r, hc, hvals, hne, hmap, hglen, hled, hcore⟩ :=
    bindPivotCore_stages catalog ref cols ref1 handled total hv hlim hbase hpne hPA
  rw [hcore] at hok
  have hst : st = st3 := by
    cases h4 : pivotStageFour st3 s3 pvs with
    | ok n =>
      rw [h4, except_map_ok] at hok
      injection hok with h
      exact (congrArg Prod.snd h).symm
    | error e =>
      rw [h4, except_map_error] at hok
      exact Except.noConfusion hok
  rw [hst, hled]
  exact ⟨ledger_nodup g r _ _ _, ledger_reserved g r _ _ _⟩

/-- The first synthesized group alias, written out. -/
theorem synthName_group_one : synthName "group" 1 = "__internal_pivot_group1" := by
  have h1 : decDigits 1 = [1] := by norm_num [decDigits]
  simp [synthName, toDecimalString, h1]
  rfl

/-- C6 counterexample: the rewrite accepts a source column the user spelled
exactly like the first synthesized group alias, so a synthesized name can
equal a user-controlled identifier of the same rewrite. -/
theorem c6_counterexample :
    (bindPivotCore (fun _ => none) c6Ref c6Cols).map Prod.snd = .ok c6CtrSt
    ∧ synthName "group" 1 ∈ c6CtrSt.synthesizedLedger
    ∧ ∃ c ∈ c6Cols, PExpr.getName c = synthName "group" 1 := by
  refine ⟨by rfl, ?_, ?_⟩
  · exact List.mem_cons_self _ _
  · exact ⟨.colRef ["__internal_pivot_group1"] "", by simp [c6Cols],
      by rw [synthName_group_one]; rfl⟩

/-- Witness for C6: the theorem applied to a concrete successful rewrite. -/
theorem c6_synthesized_names_distinct_witness :
    (c6Out.2).synthesizedLedger.Nodup
    ∧ ∀ n ∈ (c6Out.2).synthesizedLedger, reservedSynthName n :=
  c6_synthesized_names_distinct (fun _ => none) c6Ref c6WCols c6Ref
    ["v", "q"] 2 c6Out.1 c6Out.2 (by rfl) (by decide)
    (Or.inr (by decide)) (by intro h; simp [c6Ref] at h) (by decide) (by rfl)
